import Mathlib

/-!
Verification of the real-time session orchestration core of the
MurderParty backend against its natural-language specification.

The development shallowly embeds the relevant Python services as pure
Lean functions over explicit state records:

  - `app/services/envelopes.py`      (fair envelope allocation)
  - `app/services/session_engine.py` (round state machine and soft timer)
  - `app/services/hint_service.py`   (hint delivery and destruction)
  - `app/services/ws_manager.py`     (connection registry)

Conventions used throughout:
  - Python dicts are modelled as association lists (first key wins, keys
    kept unique by the operations / invariants);
  - Python sets are modelled as duplicate-free lists;
  - Python string truthiness (None and the empty string are falsy) is
    modelled explicitly where the code relies on it;
  - websocket handles are modelled as natural numbers; the narration
    texts produced by the LLM (with their deterministic fallbacks) are
    display-only and are abstracted away: only event identities are kept;
  - persistence (GAME_STATE.save) writes the in-memory state to disk and
    does not change it, so it is not represented.
-/

namespace MurderParty

instance [DecidableEq ε] [DecidableEq α] : DecidableEq (Except ε α)
  | Except.error e, Except.error f => decidable_of_iff (e = f) (by simp)
  | Except.error _, Except.ok _ => isFalse (by simp)
  | Except.ok _, Except.error _ => isFalse (by simp)
  | Except.ok a, Except.ok b => decidable_of_iff (a = b) (by simp)

/-- Python truthiness of an optional string field: None and the empty
string are falsy. -/
def truthy : Option String → Bool
  | none => false
  | some s => s ≠ ""

/-- Code-point comparison of character lists, the order Python uses for
string comparison. -/
def charListLtb : List Char → List Char → Bool
  | [], [] => false
  | [], _ :: _ => true
  | _ :: _, [] => false
  | a :: as, b :: bs =>
    if a.toNat < b.toNat then true
    else if b.toNat < a.toNat then false
    else charListLtb as bs

/-- Strict lexicographic string order (Python's `<` on str). -/
def strLtb (a b : String) : Bool := charListLtb a.data b.data

/-- Stable insertion used by `sortLe`: an element is placed before the
first already-sorted element it is `le`-below, so elements with equal
keys keep their original relative order. -/
def insertLe (le : α → α → Bool) (x : α) : List α → List α
  | [] => [x]
  | y :: l => if le x y then x :: y :: l else y :: insertLe le x l

/-- Stable sort by a boolean `le`; extensionally the same reordering as
Python's stable `list.sort(key=...)`. -/
def sortLe (le : α → α → Bool) : List α → List α
  | [] => []
  | x :: l => insertLe le x (sortLe le l)

/-! ## Fair allocation engine (`app/services/envelopes.py`)

An envelope (prop) carries an id (already normalised to a string by
`_normalize_id`), an importance tag and an optional assignee; a missing
`importance` key defaults to "medium" and is modelled by the caller
storing that default. -/

structure Env where
  id : String
  importance : String
  assigned : Option String
deriving DecidableEq

def dummyEnv : Env := { id := "", importance := "", assigned := none }

/-- ASCII lowering, the fragment of `str.lower()` the importance tags
exercise. -/
def lowerChar (c : Char) : Char :=
  if 'A' ≤ c ∧ c ≤ 'Z' then Char.ofNat (c.toNat + 32) else c

def lowerStr (s : String) : String := String.mk (s.data.map lowerChar)

/-- `IMPORTANCE_ORDER = ("high": 0, "medium": 1, "low": 2)` as a lookup. -/
def IMPORTANCE_ORDER (s : String) : Option Nat :=
  if s = "high" then some 0
  else if s = "medium" then some 1
  else if s = "low" then some 2
  else none

/-- `IMPORTANCE_ORDER.get(str(importance).lower(), 1)`. -/
def importanceRank (imp : String) : Nat :=
  (IMPORTANCE_ORDER (lowerStr imp)).getD 1

/-- The maximal digit suffix of a string, as matched by the regular
expression of `_env_sort_key` (a digit group anchored at the end). -/
def digitSuffix (s : String) : List Char :=
  (s.data.reverse.takeWhile Char.isDigit).reverse

def digitsToNat (l : List Char) : Nat :=
  l.foldl (fun acc c => acc * 10 + (c.toNat - 48)) 0

/-- The numeric-aware id key: `(0, int(match))` when the id ends in
digits, `(1, id)` otherwise. -/
inductive IdKey where
  | num (n : Nat)
  | str (s : String)
deriving DecidableEq

def idKey (s : String) : IdKey :=
  let ds := digitSuffix s
  if ds.isEmpty then IdKey.str s else IdKey.num (digitsToNat ds)

/-- Tuple order on id keys: every `(0, _)` sorts before every `(1, _)`,
numbers by value, strings lexicographically. -/
def idKeyLeb : IdKey → IdKey → Bool
  | IdKey.num a, IdKey.num b => a ≤ b
  | IdKey.num _, IdKey.str _ => true
  | IdKey.str _, IdKey.num _ => false
  | IdKey.str a, IdKey.str b => strLtb a b || a == b

/-- `_env_sort_key` of `distribute_envelopes_equitable`: importance rank
first, then the numeric-aware id key. -/
def envKeyLeb (a b : Env) : Bool :=
  let ra := importanceRank a.importance
  let rb := importanceRank b.importance
  ra < rb || (ra == rb && idKeyLeb (idKey a.id) (idKey b.id))

/-- `_count_per_player`: envelopes per assignee, skipping falsy assignee
ids, read back through `counts.get(pid, 0)`. -/
def count_per_player (envs : List Env) (p : String) : Nat :=
  if p = "" then 0 else (envs.filter (fun e => e.assigned == some p)).length

/-- A heap entry `(current count, stable player index, player id)` as
pushed on the `heapq` min-heap. -/
abbrev HeapEntry := Nat × Nat × String

/-- The lexicographic order `heapq` compares entries with. -/
def entLtb (a b : HeapEntry) : Bool :=
  a.1 < b.1 ||
    (a.1 == b.1 &&
      (a.2.1 < b.2.1 || (a.2.1 == b.2.1 && strLtb a.2.2 b.2.2)))

/-- `heapq.heappop`: remove and return the least entry.  The heap itself
is modelled extensionally as the list of its entries. -/
def popMin : List HeapEntry → Option (HeapEntry × List HeapEntry)
  | [] => none
  | e :: rest =>
    match popMin rest with
    | none => some (e, [])
    | some (m, rest') =>
      if entLtb m e then some (m, e :: rest') else some (e, rest)

/-- Write `pid` into the assignment slot of the envelope at position `i`
(the in-place `env["assigned_player_id"] = pid` of the loop). -/
def assignAt (envs : List Env) (i : Nat) (pid : String) : List Env :=
  envs.set i { envs.getD i dummyEnv with assigned := some pid }

/-- One iteration of the allocation loop: pop the least-served player,
assign the envelope at position `i` to them, push the incremented
entry back. -/
def heapStep (st : List Env × List HeapEntry) (i : Nat) :
    List Env × List HeapEntry :=
  match popMin st.2 with
  | none => st
  | some (e, rest) => (assignAt st.1 i e.2.2, (e.1 + 1, e.2.1, e.2.2) :: rest)

/-- The whole allocation loop over the (sorted) positions of the
unassigned envelopes. -/
def runAssign (envs : List Env) (heap : List HeapEntry) (idxs : List Nat) :
    List Env × List HeapEntry :=
  idxs.foldl heapStep (envs, heap)

/-- Positions of the envelopes `to_assign` collects: those whose
`assigned_player_id` is falsy. -/
def unassignedIdxs (envs : List Env) : List Nat :=
  (List.range envs.length).filter (fun i => !truthy (envs.getD i dummyEnv).assigned)

/-- Comparing two positions by the sort key of the envelopes there. -/
def idxLeb (envs : List Env) (i j : Nat) : Bool :=
  envKeyLeb (envs.getD i dummyEnv) (envs.getD j dummyEnv)

/-- `to_assign.sort(key=_env_sort_key)`: the unassigned positions,
stably sorted by the envelope sort key (sorting positions stably by the
key of the envelope at each position is the same processing order as
Python's stable sort of the list of envelope references). -/
def sortedIdxs (envs : List Env) : List Nat :=
  sortLe (idxLeb envs) (unassignedIdxs envs)

/-- The initial heap: one entry `(counts.get(pid, 0), index, pid)` per
player, in enumeration order. -/
def initHeap (players : List String) (envs : List Env) : List HeapEntry :=
  players.enum.map (fun pr => (count_per_player envs pr.2, pr.1, pr.2))

structure DistResult where
  assigned : Nat
  left : Nat
deriving DecidableEq

/-- `distribute_envelopes_equitable`: players are the `player_id`s of
`state.players` in insertion order, `envs` the seed's envelope list with
ids already normalised.  The returned `per_player` map of the Python
function is `count_per_player` of the returned envelope list. -/
def distribute_envelopes_equitable (players : List String) (envs : List Env) :
    DistResult × List Env :=
  if players.isEmpty then ({ assigned := 0, left := 0 }, envs)
  else if (unassignedIdxs envs).isEmpty then
    ({ assigned := 0,
       left := (envs.filter (fun e => !truthy e.assigned)).length }, envs)
  else
    let res := runAssign envs (initHeap players envs) (sortedIdxs envs)
    ({ assigned := (sortedIdxs envs).length,
       left := (res.1.filter (fun e => !truthy e.assigned)).length }, res.1)

/-- The envelope pool after only the first `k` iterations of the
allocation loop of `distribute_envelopes_equitable` (the intermediate
in-place state at the point each envelope is assigned). -/
def distributeK (players : List String) (envs : List Env) (k : Nat) : List Env :=
  if players.isEmpty then envs
  else if (unassignedIdxs envs).isEmpty then envs
  else (runAssign envs (initHeap players envs) ((sortedIdxs envs).take k)).1

/-- Repeated allocation runs over a fixed player set: before each run a
batch of new envelopes is appended to the pool, then
`distribute_envelopes_equitable` is run. -/
def runSeq (players : List String) (envs0 : List Env)
    (additions : List (List Env)) : List Env :=
  additions.foldl
    (fun envs add => (distribute_envelopes_equitable players (envs ++ add)).2)
    envs0

/-- The fairness property of the spec: any two players are within one
envelope of each other. -/
def Balanced (players : List String) (envs : List Env) : Prop :=
  ∀ p ∈ players, ∀ q ∈ players,
    count_per_player envs p ≤ count_per_player envs q + 1

instance (players : List String) (envs : List Env) :
    Decidable (Balanced players envs) := by
  unfold Balanced; infer_instance

/-! ## Association-list primitives shared by the dict-backed components -/

/-- Dict write `d[k] = v`: replace the entry in place when the key is
present (keys are unique in a dict), append it otherwise. -/
def assocSet [BEq α] (l : List (α × β)) (k : α) (v : β) : List (α × β) :=
  match l with
  | [] => [(k, v)]
  | kv :: rest => if kv.1 == k then (k, v) :: rest else kv :: assocSet rest k v

/-- Dict read `d.get(k)`. -/
def assocFind [BEq α] (l : List (α × β)) (k : α) : Option β :=
  (l.find? (fun kv => kv.1 == k)).map (fun kv => kv.2)

/-- Dict delete `d.pop(k, None)`. -/
def assocDrop [BEq α] (l : List (α × β)) (k : α) : List (α × β) :=
  l.filter (fun kv => !(kv.1 == k))

/-! ## Round orchestrator (`app/services/session_engine.py`)

The session sub-state of `GAME_STATE.state` plus the engine's timer task
handle, as one record.  The round-control coroutines are embedded as
pure functions `input → result × state × broadcasts`; the narration
texts (LLM output with offline fallback) are display-only and the
broadcasts keep only the event identity.  The rejection messages stand
for the original French error strings. -/

inductive Phase where
  | IDLE | INTRO | ACTIVE | COOLDOWN
deriving DecidableEq

/-- One round of `session_plan.json`; only the keys the engine reads. -/
structure Round where
  mini_game : Option String
  theme : Option String
  max_seconds : Option Nat
  duration_seconds : Option Nat
deriving DecidableEq

def dummyRound : Round :=
  { mini_game := none, theme := none, max_seconds := none, duration_seconds := none }

structure RoundResult where
  winners : List String
  meta : List (String × String)
deriving DecidableEq

/-- The `session` sub-state (`round_phase`, `round_index`,
`round_results`) together with the `_timer_task` handle, modelled as the
pending timer duration. -/
structure SessState where
  round_phase : Phase
  round_index : Nat
  round_results : List (String × RoundResult)
  timer : Option Nat
deriving DecidableEq

/-- A broadcast: either a narration notice (event identity only) or a
facilitator prompt. -/
inductive Msg where
  | narration (event : String)
  | prompt (kind : String) (round_index : Nat)
deriving DecidableEq

structure CallResult where
  ok : Bool
  error : Option String
  done : Bool
deriving DecidableEq

/-- Python `a or b or None` over numbers, where 0 is falsy. -/
def natOrNone : Option Nat → Option Nat
  | some n => if n = 0 then none else some n
  | none => none

def pyOrNat (a b : Option Nat) : Option Nat :=
  match natOrNone a with
  | some n => some n
  | none => natOrNone b

/-- `SESSION.start_next_round()`. -/
def start_next_round (plan : List Round) (s : SessState) :
    CallResult × SessState × List Msg :=
  if plan.isEmpty then
    ({ ok := false, error := some "session_plan_sans_rounds", done := false }, s, [])
  else if s.round_phase = Phase.INTRO ∨ s.round_phase = Phase.ACTIVE then
    ({ ok := false, error := some "round_en_cours", done := false }, s, [])
  else
    let s1 : SessState := { s with timer := none }
    let s2 : SessState := { s1 with round_index := s1.round_index + 1 }
    let idx := s2.round_index
    if plan.length < idx then
      ({ ok := true, error := none, done := true }, s2, [Msg.narration "session_end"])
    else
      let s3 : SessState := { s2 with round_phase := Phase.INTRO }
      ({ ok := true, error := none, done := false }, s3,
        [Msg.narration "round_intro", Msg.prompt "start_minigame" idx])

/-- `SESSION.confirm_start()`.  `start_timer` replaces any previous
timer task by the new one. -/
def confirm_start (plan : List Round) (s : SessState) :
    CallResult × SessState × List Msg :=
  if s.round_phase ≠ Phase.INTRO then
    ({ ok := false, error := some "aucun_round_en_phase_intro", done := false }, s, [])
  else
    let s1 : SessState := { s with round_phase := Phase.ACTIVE }
    let r := plan.getD (s1.round_index - 1) dummyRound
    let maxSec := pyOrNat r.max_seconds r.duration_seconds
    let s2 : SessState :=
      match maxSec with
      | some n => { s1 with timer := some n }
      | none => s1
    ({ ok := true, error := none, done := false }, s2, [Msg.narration "round_start"])

/-- `SESSION.finish_current_round(winners, meta)` (the route passes the
already-defaulted winners list and meta dict). -/
def finish_current_round (winners : List String) (meta : List (String × String))
    (s : SessState) : CallResult × SessState × List Msg :=
  if s.round_phase ≠ Phase.ACTIVE then
    ({ ok := false, error := some "aucun_round_actif", done := false }, s, [])
  else
    let s1 : SessState := { s with timer := none }
    let idx := s1.round_index
    let s2 : SessState :=
      { s1 with
        round_results :=
          assocSet s1.round_results (toString idx) { winners := winners, meta := meta },
        round_phase := Phase.COOLDOWN }
    ({ ok := true, error := none, done := false }, s2,
      [Msg.narration "round_end", Msg.prompt "next_round_ready" idx])

/-- A broadcast emitted by the timer task: the cancellable sleep that
precedes it (seconds relative to the previous event) and the narration
event identity. -/
structure TimerEvent where
  delay : Nat
  event : String
deriving DecidableEq

/-- The body of the `_runner` task created by `SESSION.start_timer`.
The session state is threaded through explicitly: the task only sleeps
and broadcasts, so the embedding returns it untouched, which is the
formal content of the timer never forcing a phase transition. -/
def timer_runner (seconds : Nat) (s : SessState) : List TimerEvent × SessState :=
  if 60 ≤ seconds then
    ([{ delay := max 1 (seconds / 2), event := "half_time" },
      { delay := seconds - seconds / 2, event := "timer_end" }], s)
  else
    ([{ delay := seconds, event := "timer_end" }], s)

/-! ## Hint delivery engine (`app/services/hint_service.py`)

Hint maps, sharing rules and prepared rounds are string-keyed dicts.
The `uuid4` hint id and the wall-clock timestamps are nondeterministic
inputs of the environment and are passed in / omitted. -/

structure Delivery where
  player_id : String
  tier : String
  text : String
deriving DecidableEq

structure HintEntry where
  hint_id : String
  round_index : Nat
  discoverer_id : String
  source_tier : String
  shared : Bool
  deliveries : List Delivery
  other_tier : String
  destroyed : Bool
  destroyed_by : Option String
deriving DecidableEq

/-- The candidate key list built by `_resolve_other_tier` (for "major"
and "vague" the same key is appended a second time). -/
def candidateKeys (tier : String) : List String :=
  ["discoverer_" ++ tier ++ "_others"] ++
    (if tier = "major" then ["discoverer_major_others"]
     else if tier = "vague" then ["discoverer_vague_others"]
     else [])

def hasKey (l : List (String × String)) (k : String) : Bool :=
  l.any (fun kv => kv.1 == k)

/-- First candidate key whose sharing-rule value is a tier present in
the hints map. -/
def firstRuleHit (keys : List String) (rules hints : List (String × String)) :
    Option String :=
  match keys with
  | [] => none
  | k :: ks =>
    match assocFind rules k with
    | some c => if hasKey hints c then some c else firstRuleHit ks rules hints
    | none => firstRuleHit ks rules hints

/-- First tier of the fixed fallback chain present in the hints map. -/
def firstFallback (keys : List String) (hints : List (String × String)) :
    Option String :=
  match keys with
  | [] => none
  | k :: ks => if hasKey hints k then some k else firstFallback ks hints

/-- `_resolve_other_tier`. -/
def resolve_other_tier (discoverer_tier : String) (share : Bool)
    (hints_map sharing_rules : List (String × String)) : String :=
  if share then discoverer_tier
  else
    match firstRuleHit (candidateKeys discoverer_tier) sharing_rules hints_map with
    | some c => c
    | none =>
      match firstFallback ["vague", "minor", "misleading"] hints_map with
      | some f => f
      | none => discoverer_tier

/-- The slice of `GameState` that `deliver_hint` reads: the player ids,
the per-round prepared hints maps
(`state["session"]["prepared_rounds"][str(i)]["llm_assets"]["hints"]["hints"]`,
flattened to the innermost tier→text dict) and the per-round
`sharing_rules` tables of the story seed
(`seed["rounds"][i-1]["llm"]["hint_policy"]["sharing_rules"]`). -/
structure HintCtx where
  players : List String
  prepared_rounds : List (String × List (String × String))
  seed_rounds : List (List (String × String))
deriving DecidableEq

/-- `_load_sharing_rules`. -/
def load_sharing_rules (ctx : HintCtx) (round_index : Nat) :
    List (String × String) :=
  if 1 ≤ round_index ∧ round_index ≤ ctx.seed_rounds.length then
    ctx.seed_rounds.getD (round_index - 1) []
  else []

inductive HintErr where
  | unknownDiscoverer | roundNotPrepared | noHintsAvailable | tierUnavailable
deriving DecidableEq

/-- Python `a or b` over strings, where the empty string is falsy. -/
def pyOrStr (a b : Option String) : Option String :=
  match a with
  | some s => if s = "" then b else some s
  | none => b

/-- `deliver_hint` up to the persisted/broadcast record it builds; the
`uuid4` id is an input. -/
def deliver_hint (ctx : HintCtx) (hint_id : String) (round_index : Nat)
    (discoverer_id tier : String) (share : Bool) : Except HintErr HintEntry :=
  if ¬ ctx.players.contains discoverer_id then
    Except.error HintErr.unknownDiscoverer
  else
    match assocFind ctx.prepared_rounds (toString round_index) with
    | none => Except.error HintErr.roundNotPrepared
    | some hints =>
      if hints.isEmpty then Except.error HintErr.noHintsAvailable
      else if ¬ hasKey hints tier then Except.error HintErr.tierUnavailable
      else
        let rules := load_sharing_rules ctx round_index
        let other := resolve_other_tier tier share hints rules
        let deliveries := ctx.players.map (fun pid =>
          let dtier := if share || pid == discoverer_id then tier else other
          { player_id := pid, tier := dtier,
            text := (pyOrStr (assocFind hints dtier) (assocFind hints tier)).getD "" })
        Except.ok
          { hint_id := hint_id, round_index := round_index,
            discoverer_id := discoverer_id, source_tier := tier,
            shared := share, deliveries := deliveries, other_tier := other,
            destroyed := false, destroyed_by := none }

/-- The raw `rules.killer.destroy_quota` value of the story seed, seen
through the outcome of the Python builtin `int(...)` applied to it.
`int` is a language builtin consumed as an oracle (like `uuid4` and
`time.time`), not re-implemented here:
  - `absent`: the seed fails to load or has no such key;
  - `parsed n`: `int(raw)` returns the integer `n` (raw is an int, or
    any string `int` accepts — including whitespace padding, underscore
    grouping and non-ASCII digits);
  - `unparseable`: `int(raw)` raises TypeError or ValueError (a None
    value, a non-numeric string, ...). -/
inductive SeedQuota where
  | absent
  | parsed (n : Int)
  | unparseable
deriving DecidableEq

/-- `_get_destroy_quota`: the parsed quota, with 0 as the default when
the value is missing or `int(...)` raises. -/
def get_destroy_quota : SeedQuota → Int
  | SeedQuota.absent => 0
  | SeedQuota.parsed n => n
  | SeedQuota.unparseable => 0

/-- The slice of `GameState` that `destroy_hint` touches:
`state["hints_history"]`, `state["canon"]["culprit_player_id"]`,
`state["killer_actions"]["destroy_used"]` and the seed quota value. -/
structure DState where
  hints_history : List HintEntry
  culprit_player_id : Option String
  destroy_used : Nat
  destroy_quota_raw : SeedQuota
deriving DecidableEq

/-- `if culprit_id and killer_id != culprit_id` (truthiness: a missing
or empty culprit disables the check). -/
def culpritBlocks (culprit : Option String) (killer : String) : Bool :=
  match culprit with
  | some c => c ≠ "" && killer ≠ c
  | none => false

inductive DestroyErr where
  | notFound | alreadyDestroyed | notAuthorized | quotaReached
deriving DecidableEq

/-- In-place mutation of the first history entry with the given id. -/
def updateFirstHint (l : List HintEntry) (hid : String) (v : HintEntry) :
    List HintEntry :=
  match l with
  | [] => []
  | e :: rest => if e.hint_id == hid then v :: rest else e :: updateFirstHint rest hid v

/-- The linear scan of `hints_history` for the target entry. -/
def hintLookup (st : DState) (hid : String) : Option HintEntry :=
  st.hints_history.find? (fun e => e.hint_id == hid)

/-- The quota guard `if quota and used >= quota` of `destroy_hint`. -/
def quotaExhausted (st : DState) : Prop :=
  get_destroy_quota st.destroy_quota_raw ≠ 0 ∧
    (st.destroy_used : Int) ≥ get_destroy_quota st.destroy_quota_raw

instance (st : DState) : Decidable (quotaExhausted st) := by
  unfold quotaExhausted; infer_instance

/-- `destroy_hint`; a raise leaves the state exactly as it was, so the
embedding returns the untouched state next to the error. -/
def destroy_hint (st : DState) (hint_id killer_id : String) :
    DState × Except DestroyErr HintEntry :=
  match hintLookup st hint_id with
  | none => (st, Except.error DestroyErr.notFound)
  | some target =>
    if target.destroyed then (st, Except.error DestroyErr.alreadyDestroyed)
    else if culpritBlocks st.culprit_player_id killer_id then
      (st, Except.error DestroyErr.notAuthorized)
    else if quotaExhausted st then (st, Except.error DestroyErr.quotaReached)
    else
      let target2 := { target with destroyed := true, destroyed_by := some killer_id }
      ({ st with
          hints_history := updateFirstHint st.hints_history hint_id target2,
          destroy_used := st.destroy_used + 1 },
        Except.ok target2)

/-! ## Connection registry (`app/services/ws_manager.py`)

Websocket handles are natural numbers; the three registries of
`WSManager` are the state.  Buckets are sets (duplicate-free lists);
an emptied bucket is popped from the dict.  A send failure is modelled
by the environment predicate `dead`. -/

structure WState where
  clients_by_player : List (String × List Nat)
  pending : List Nat
  ws_to_player : List (Nat × String)
deriving DecidableEq

def initW : WState := { clients_by_player := [], pending := [], ws_to_player := [] }

def bucketOf (st : WState) (pid : String) : List Nat :=
  (assocFind st.clients_by_player pid).getD []

def wsPlayer (st : WState) (ws : Nat) : Option String :=
  assocFind st.ws_to_player ws

def setAdd (l : List Nat) (x : Nat) : List Nat := if x ∈ l then l else l ++ [x]

def setDiscard (l : List Nat) (x : Nat) : List Nat := l.filter (fun y => !(y == x))

/-- `_unlink_ws_from_current_player`.  The reverse-map entry is popped
unconditionally; the bucket removal runs only under `if prev_pid:`,
which is false for a falsy (empty) previous id. -/
def unlink_ws_from_current_player (st : WState) (ws : Nat) : WState :=
  let pending2 := setDiscard st.pending ws
  match wsPlayer st ws with
  | none => { st with pending := pending2 }
  | some prev =>
    let wtp2 := assocDrop st.ws_to_player ws
    if prev ≠ "" then
      let b := bucketOf st prev
      if b ≠ [] ∧ ws ∈ b then
        let b2 := setDiscard b ws
        if b2.isEmpty then
          { clients_by_player := assocDrop st.clients_by_player prev,
            pending := pending2, ws_to_player := wtp2 }
        else
          { clients_by_player := assocSet st.clients_by_player prev b2,
            pending := pending2, ws_to_player := wtp2 }
      else { st with pending := pending2, ws_to_player := wtp2 }
    else { st with pending := pending2, ws_to_player := wtp2 }

/-- `connect` (the transport-level accept is outside the state). -/
def connect (st : WState) (ws : Nat) : WState :=
  { st with pending := setAdd st.pending ws }

/-- `identify`.  The removal from the previous bucket runs only under
`if prev_pid and prev_pid != player_id:`, so a falsy (empty) previous
id skips it. -/
def identify (st : WState) (ws : Nat) (player_id : String) : WState :=
  let pending2 := setDiscard st.pending ws
  let clients1 :=
    match wsPlayer st ws with
    | some prev =>
      if prev ≠ "" ∧ prev ≠ player_id then
        let bq := bucketOf st prev
        if bq ≠ [] ∧ ws ∈ bq then
          let bq2 := setDiscard bq ws
          if bq2.isEmpty then assocDrop st.clients_by_player prev
          else assocSet st.clients_by_player prev bq2
        else st.clients_by_player
      else st.clients_by_player
    | none => st.clients_by_player
  let bucket := (assocFind clients1 player_id).getD []
  { clients_by_player := assocSet clients1 player_id (setAdd bucket ws),
    pending := pending2,
    ws_to_player := assocSet st.ws_to_player ws player_id }

/-- `disconnect` (the transport close is outside the state). -/
def disconnect (st : WState) (ws : Nat) : WState :=
  unlink_ws_from_current_player st ws

/-- `_send_json_one`: a failed send evicts the connection and reports
False. -/
def send_json_one (dead : Nat → Bool) (st : WState) (ws : Nat) : WState × Bool :=
  if dead ws then (unlink_ws_from_current_player st ws, false) else (st, true)

/-- One iteration of the delivery loop of `send_to_player`: try the
send, thread the (possibly eviction-mutated) registry, count the
success. -/
def sendStep (dead : Nat → Bool) (acc : WState × Nat) (ws : Nat) : WState × Nat :=
  let r := send_json_one dead acc.1 ws
  (r.1, acc.2 + if r.2 then 1 else 0)

/-- `send_to_player`: snapshot the bucket, deliver to each connection,
count the successes. -/
def send_to_player (dead : Nat → Bool) (st : WState) (player_id : String) :
    WState × Nat :=
  let conns := bucketOf st player_id
  conns.foldl (sendStep dead) (st, 0)

/-- The registry operations of the claim: connect, identify, disconnect
and the eviction performed by targeted sends (the environment chooses
which connections are dead at each send). -/
inductive WOp where
  | connectOp (ws : Nat)
  | identifyOp (ws : Nat) (player_id : String)
  | disconnectOp (ws : Nat)
  | sendOp (player_id : String) (dead : Nat → Bool)

def applyOp (st : WState) : WOp → WState
  | WOp.connectOp ws => connect st ws
  | WOp.identifyOp ws pid => identify st ws pid
  | WOp.disconnectOp ws => disconnect st ws
  | WOp.sendOp pid dead => (send_to_player dead st pid).1

/-- The registry well-formedness invariant: dict keys are unique,
buckets and the pending set are duplicate-free, bucket membership and
the reverse map agree in both directions, pending connections are
unbound, and no connection is bound to the empty (falsy) player id —
the request layer validates ids before `identify` is ever called. -/
def WInv (st : WState) : Prop :=
  (st.clients_by_player.map Prod.fst).Nodup ∧
  (st.ws_to_player.map Prod.fst).Nodup ∧
  st.pending.Nodup ∧
  (∀ kv ∈ st.clients_by_player, kv.2.Nodup) ∧
  (∀ kv ∈ st.clients_by_player, ∀ ws ∈ kv.2, wsPlayer st ws = some kv.1) ∧
  (∀ kv ∈ st.ws_to_player, kv.1 ∈ bucketOf st kv.2) ∧
  (∀ ws ∈ st.pending, wsPlayer st ws = none) ∧
  (∀ kv ∈ st.ws_to_player, kv.2 ≠ "")

instance (st : WState) : Decidable (WInv st) := by
  unfold WInv; infer_instance

/-- A realisable operation sequence: the transport hands `connect` a
brand-new socket object, so a connected handle is never one that is
currently identified; and the request layer (`routes/websocket.py`)
strips the requested player id and rejects an empty one before calling
`identify`, so `identify` only ever receives a non-empty id. -/
def ValidFrom : WState → List WOp → Prop
  | _, [] => True
  | st, op :: rest =>
    (match op with
     | WOp.connectOp ws => wsPlayer st ws = none
     | WOp.identifyOp _ pid => pid ≠ ""
     | _ => True) ∧ ValidFrom (applyOp st op) rest

instance instDecValidFrom (st : WState) (ops : List WOp) : Decidable (ValidFrom st ops) :=
  match ops with
  | [] => isTrue trivial
  | op :: rest =>
    have hop : Decidable (match op with
        | WOp.connectOp ws => wsPlayer st ws = none
        | WOp.identifyOp _ pid => pid ≠ ""
        | _ => True) :=
      match op with
      | WOp.connectOp ws => inferInstanceAs (Decidable (wsPlayer st ws = none))
      | WOp.identifyOp _ pid => inferInstanceAs (Decidable (pid ≠ ""))
      | WOp.disconnectOp _ => isTrue trivial
      | WOp.sendOp _ _ => isTrue trivial
    @instDecidableAnd _ _ hop (instDecValidFrom (applyOp st op) rest)

/-! ## Spec-side auxiliary predicates used by the claim statements -/

/-- Invariant tying the allocation heap to the pool: the heap holds one
entry per player, every entry's count is that player's current envelope
count, and any two entries are within one of each other. -/
def HeapInv (players : List String) (envs : List Env) (heap : List HeapEntry) : Prop :=
  (heap.map (fun e => e.2.2)).Perm players ∧
  (∀ e ∈ heap, e.1 = count_per_player envs e.2.2) ∧
  (∀ e1 ∈ heap, ∀ e2 ∈ heap, e1.1 ≤ e2.1 + 1)

/-- The spec's fixed degradation preference order: the first of vague,
minor, misleading present in the hints map, or else the original tier. -/
def fallbackTier (hints : List (String × String)) (tier : String) : String :=
  if hasKey hints "vague" then "vague"
  else if hasKey hints "minor" then "minor"
  else if hasKey hints "misleading" then "misleading"
  else tier

/-- The spec's description of the tier every non-discoverer receives
when the hint is not shared: the sharing-rules entry for the discoverer
tier when that entry names a tier present in the hints map, otherwise
the fallback chain. -/
def specOtherTier (rules hints : List (String × String)) (tier : String) : String :=
  match assocFind rules ("discoverer_" ++ tier ++ "_others") with
  | some m => if hasKey hints m then m else fallbackTier hints tier
  | none => fallbackTier hints tier

/-! ## Concrete instances used by the witnesses -/

/-- The hint context of the test scenario: two players, round 1
prepared with the four tiers, seed rule major → vague. -/
def c5Ctx : HintCtx :=
  { players := ["p1", "p2"],
    prepared_rounds :=
      [("1", [("major", "Indice majeur"), ("minor", "Indice secondaire"),
              ("vague", "Indice vague"), ("misleading", "Indice trompeur")])],
    seed_rounds := [[("discoverer_major_others", "vague")]] }

def c5Hints : List (String × String) :=
  [("major", "Indice majeur"), ("minor", "Indice secondaire"),
   ("vague", "Indice vague"), ("misleading", "Indice trompeur")]

def c5Entry : HintEntry :=
  { hint_id := "h", round_index := 1, discoverer_id := "p1", source_tier := "major",
    shared := false,
    deliveries := [{ player_id := "p1", tier := "major", text := "Indice majeur" },
                   { player_id := "p2", tier := "vague", text := "Indice vague" }],
    other_tier := "vague", destroyed := false, destroyed_by := none }

/-- An undamaged history entry with the given id. -/
def c6Hint (i : String) : HintEntry :=
  { hint_id := i, round_index := 1, discoverer_id := "p1", source_tier := "major",
    shared := true, deliveries := [], other_tier := "major",
    destroyed := false, destroyed_by := none }

/-- Three hints, a designated culprit "k" and a destroy quota of 2. -/
def c6St0 : DState :=
  { hints_history := [c6Hint "h1", c6Hint "h2", c6Hint "h3"],
    culprit_player_id := some "k",
    destroy_used := 0, destroy_quota_raw := SeedQuota.parsed 2 }

/-- One hint, no culprit, an unparseable quota value, counter at 5. -/
def c10St : DState :=
  { hints_history :=
      [{ hint_id := "h9", round_index := 2, discoverer_id := "p2",
         source_tier := "minor", shared := false, deliveries := [],
         other_tier := "vague", destroyed := false, destroyed_by := none }],
    culprit_player_id := none,
    destroy_used := 5, destroy_quota_raw := SeedQuota.unparseable }

/-! ## Theorems: round state machine (C3, C4) and soft timer (C8) -/

/-- C3: a round-control call made from the wrong phase is rejected with
an error and the session state (phase, round index, results, timer) is
left exactly as it was: `confirm_start` outside INTRO,
`start_next_round` during INTRO or ACTIVE, and `finish_current_round`
outside ACTIVE. -/
theorem C3_round_state_machine_legality (plan : List Round) (s : SessState)
    (winners : List String) (meta : List (String × String)) :
    (s.round_phase ≠ Phase.INTRO →
      (confirm_start plan s).1.ok = false ∧
      ((confirm_start plan s).1.error).isSome = true ∧
      (confirm_start plan s).2.1 = s) ∧
    ((s.round_phase = Phase.INTRO ∨ s.round_phase = Phase.ACTIVE) →
      (start_next_round plan s).1.ok = false ∧
      ((start_next_round plan s).1.error).isSome = true ∧
      (start_next_round plan s).2.1 = s) ∧
    (s.round_phase ≠ Phase.ACTIVE →
      (finish_current_round winners meta s).1.ok = false ∧
      ((finish_current_round winners meta s).1.error).isSome = true ∧
      (finish_current_round winners meta s).2.1 = s) := by
  refine ⟨fun h => ?_, fun h => ?_, fun h => ?_⟩
  · simp [confirm_start, h]
  · by_cases hp : plan.isEmpty
    · simp [start_next_round, hp]
    · simp [start_next_round, hp, h]
  · simp [finish_current_round, h]

theorem C3_witness :
    (confirm_start []
      { round_phase := Phase.IDLE, round_index := 0, round_results := [], timer := none }).1.ok
        = false ∧
    (start_next_round []
      { round_phase := Phase.ACTIVE, round_index := 2, round_results := [], timer := some 30 }).2.1
        = { round_phase := Phase.ACTIVE, round_index := 2, round_results := [], timer := some 30 } ∧
    (finish_current_round [] []
      { round_phase := Phase.IDLE, round_index := 0, round_results := [], timer := none }).1.ok
        = false :=
  ⟨((C3_round_state_machine_legality []
      { round_phase := Phase.IDLE, round_index := 0, round_results := [], timer := none }
      [] []).1 (by decide)).1,
   ((C3_round_state_machine_legality []
      { round_phase := Phase.ACTIVE, round_index := 2, round_results := [], timer := some 30 }
      [] []).2.1 (Or.inr rfl)).2.2,
   ((C3_round_state_machine_legality []
      { round_phase := Phase.IDLE, round_index := 0, round_results := [], timer := none }
      [] []).2.2 (by decide)).1⟩

/-- C4 counterexample: with a one-round plan, phase COOLDOWN and the
round counter already at the plan length, `start_next_round` does emit
the session-end notice, but the stored round counter still increments on
each call (1 → 2 → 3), so it does keep increasing. -/
theorem C4_counterexample :
    (start_next_round [dummyRound]
      { round_phase := Phase.COOLDOWN, round_index := 1, round_results := [],
        timer := none }).2.1.round_index = 2 ∧
    (start_next_round [dummyRound]
      (start_next_round [dummyRound]
        { round_phase := Phase.COOLDOWN, round_index := 1, round_results := [],
          timer := none }).2.1).2.1.round_index = 3 ∧
    Msg.narration "session_end" ∈
      (start_next_round [dummyRound]
        { round_phase := Phase.COOLDOWN, round_index := 1, round_results := [],
          timer := none }).2.2 := by
  decide

/-- C4 (amended): when the round counter has reached or passed the plan
length and the phase permits the call, `start_next_round` emits exactly
the session-end notice, reports done, does not change the phase or the
recorded results and does not begin a round — but it still increments
the stored round counter by one on every such call. -/
theorem C4_session_end_notice (plan : List Round) (s : SessState)
    (hne : plan ≠ []) (h1 : s.round_phase ≠ Phase.INTRO)
    (h2 : s.round_phase ≠ Phase.ACTIVE)
    (hidx : plan.length ≤ s.round_index) :
    (start_next_round plan s).1.ok = true ∧
    (start_next_round plan s).1.done = true ∧
    (start_next_round plan s).2.2 = [Msg.narration "session_end"] ∧
    (start_next_round plan s).2.1.round_phase = s.round_phase ∧
    (start_next_round plan s).2.1.round_index = s.round_index + 1 ∧
    (start_next_round plan s).2.1.round_results = s.round_results := by
  have hp : plan.isEmpty = false := by
    cases plan with
    | nil => exact absurd rfl hne
    | cons a l => rfl
  have hor : ¬ (s.round_phase = Phase.INTRO ∨ s.round_phase = Phase.ACTIVE) := by
    rintro (h | h)
    · exact h1 h
    · exact h2 h
  have hlt : plan.length < s.round_index + 1 := by omega
  simp [start_next_round, hp, hor, hlt]

theorem C4_witness :
    (start_next_round [dummyRound]
      { round_phase := Phase.COOLDOWN, round_index := 5, round_results := [],
        timer := some 7 }).1.done = true ∧
    (start_next_round [dummyRound]
      { round_phase := Phase.COOLDOWN, round_index := 5, round_results := [],
        timer := some 7 }).2.1.round_index = 5 + 1 :=
  ⟨(C4_session_end_notice [dummyRound]
      { round_phase := Phase.COOLDOWN, round_index := 5, round_results := [],
        timer := some 7 }
      (by decide) (by decide) (by decide) (by decide)).2.1,
   (C4_session_end_notice [dummyRound]
      { round_phase := Phase.COOLDOWN, round_index := 5, round_results := [],
        timer := some 7 }
      (by decide) (by decide) (by decide) (by decide)).2.2.2.2.1⟩

/-- C8: a timer of duration at least 60 emits exactly the half-time
notice after `d / 2` units and the time's-up notice at expiry
(`d / 2 + (d - d / 2) = d`); a shorter one emits only the time's-up
notice at expiry; and the timer task leaves the session state (phase,
round index, results) untouched — finishing a round still requires the
explicit round-control call. -/
theorem C8_soft_timer_schedule (d : Nat) (s : SessState) :
    (60 ≤ d →
      (timer_runner d s).1 =
        [{ delay := d / 2, event := "half_time" },
         { delay := d - d / 2, event := "timer_end" }] ∧
      d / 2 + (d - d / 2) = d) ∧
    (d < 60 → (timer_runner d s).1 = [{ delay := d, event := "timer_end" }]) ∧
    (timer_runner d s).2 = s := by
  refine ⟨fun h => ?_, fun h => ?_, ?_⟩
  · have hmax : max 1 (d / 2) = d / 2 := Nat.max_eq_right (by omega)
    refine ⟨by simp [timer_runner, h, hmax], by omega⟩
  · have h60 : ¬ (60 ≤ d) := by omega
    simp [timer_runner, h60]
  · by_cases h : 60 ≤ d <;> simp [timer_runner, h]

theorem C8_witness :
    (timer_runner 120
      { round_phase := Phase.ACTIVE, round_index := 1, round_results := [],
        timer := some 120 }).1 =
      [{ delay := 120 / 2, event := "half_time" },
       { delay := 120 - 120 / 2, event := "timer_end" }] ∧
    (timer_runner 45
      { round_phase := Phase.ACTIVE, round_index := 1, round_results := [],
        timer := some 45 }).1 = [{ delay := 45, event := "timer_end" }] ∧
    (timer_runner 120
      { round_phase := Phase.ACTIVE, round_index := 1, round_results := [],
        timer := some 120 }).2 =
      { round_phase := Phase.ACTIVE, round_index := 1, round_results := [],
        timer := some 120 } :=
  ⟨((C8_soft_timer_schedule 120
      { round_phase := Phase.ACTIVE, round_index := 1, round_results := [],
        timer := some 120 }).1 (by decide)).1,
   (C8_soft_timer_schedule 45
      { round_phase := Phase.ACTIVE, round_index := 1, round_results := [],
        timer := some 45 }).2.1 (by decide),
   (C8_soft_timer_schedule 120
      { round_phase := Phase.ACTIVE, round_index := 1, round_results := [],
        timer := some 120 }).2.2⟩

/-! ## Theorems: hint delivery and destruction (C5, C6, C10) -/

theorem firstFallback_chain (hints : List (String × String)) (tier : String) :
    (match firstFallback ["vague", "minor", "misleading"] hints with
     | some f => f
     | none => tier) = fallbackTier hints tier := by
  by_cases h1 : hasKey hints "vague" <;> by_cases h2 : hasKey hints "minor" <;>
    by_cases h3 : hasKey hints "misleading" <;>
      simp [firstFallback, fallbackTier, h1, h2, h3]

theorem firstRuleHit_dup (k : String) (rules hints : List (String × String)) :
    firstRuleHit [k, k] rules hints = firstRuleHit [k] rules hints := by
  cases h : assocFind rules k with
  | none => simp [firstRuleHit, h]
  | some c =>
    by_cases hc : hasKey hints c <;> simp [firstRuleHit, h, hc]

/-- `_resolve_other_tier` with `share=False` computes exactly the tier
the spec describes: the sharing-rule entry for the discoverer tier when
it names an available tier, else the fixed fallback chain. -/
theorem resolve_other_tier_spec (tier : String) (hints rules : List (String × String)) :
    resolve_other_tier tier false hints rules = specOtherTier rules hints tier := by
  have hkeys : firstRuleHit (candidateKeys tier) rules hints =
      firstRuleHit [("discoverer_" ++ tier ++ "_others")] rules hints := by
    by_cases hm : tier = "major"
    · subst hm
      have hk : ("discoverer_" ++ "major" ++ "_others" : String) =
          "discoverer_major_others" := by decide
      simp only [candidateKeys, hk]
      simpa using firstRuleHit_dup "discoverer_major_others" rules hints
    · by_cases hv : tier = "vague"
      · subst hv
        have hk : ("discoverer_" ++ "vague" ++ "_others" : String) =
            "discoverer_vague_others" := by decide
        simp only [candidateKeys, hk]
        simpa using firstRuleHit_dup "discoverer_vague_others" rules hints
      · simp [candidateKeys, hm, hv]
  unfold resolve_other_tier specOtherTier
  rw [if_neg (by simp), hkeys]
  cases h : assocFind rules ("discoverer_" ++ tier ++ "_others") with
  | none => simpa [firstRuleHit, h] using firstFallback_chain hints tier
  | some c =>
    by_cases hc : hasKey hints c
    · simp [firstRuleHit, h, hc]
    · simpa [firstRuleHit, h, hc] using firstFallback_chain hints tier

/-- C5: when `deliver_hint` succeeds on a prepared round, the
discoverer always receives the requested tier; with `share=True` every
player receives it; with `share=False` every other player receives the
tier of the sharing-rules entry for the discoverer tier when that tier
is available, otherwise the first of (vague, minor, misleading) present
in the hints map, otherwise the requested tier. -/
theorem C5_hint_tier_resolution (ctx : HintCtx) (hid : String) (ri : Nat)
    (d tier : String) (share : Bool) (hints : List (String × String))
    (entry : HintEntry)
    (hprep : assocFind ctx.prepared_rounds (toString ri) = some hints)
    (hok : deliver_hint ctx hid ri d tier share = Except.ok entry) :
    (∀ del ∈ entry.deliveries, del.player_id = d → del.tier = tier) ∧
    (share = true → ∀ del ∈ entry.deliveries, del.tier = tier) ∧
    (share = false → ∀ del ∈ entry.deliveries, del.player_id ≠ d →
      del.tier = specOtherTier (load_sharing_rules ctx ri) hints tier) := by
  unfold deliver_hint at hok
  rw [hprep] at hok
  split at hok
  · cases hok
  · split at hok
    · cases hok
    · split at hok
      · cases hok
      · split at hok
        · cases hok
        · cases hok
          rename_i x2 hints2 heq hemp hkey
          injection heq with heq2
          subst heq2
          refine ⟨?_, ?_, ?_⟩
          · intro del hdel hpid
            rcases List.mem_map.mp hdel with ⟨pid, hmem, hdel2⟩
            subst hdel2
            simp only at hpid
            subst hpid
            simp
          · intro hsh del hdel
            rcases List.mem_map.mp hdel with ⟨pid, hmem, hdel2⟩
            subst hdel2
            simp [hsh]
          · intro hsh del hdel hpid
            rcases List.mem_map.mp hdel with ⟨pid, hmem, hdel2⟩
            subst hdel2
            simp only at hpid
            subst hsh
            simp only [Bool.false_or]
            rw [if_neg (by simpa using hpid)]
            exact resolve_other_tier_spec tier hints (load_sharing_rules ctx ri)

theorem C5_witness :
    ({ player_id := "p2", tier := "vague", text := "Indice vague" } : Delivery).tier =
      specOtherTier (load_sharing_rules c5Ctx 1) c5Hints "major" :=
  (C5_hint_tier_resolution c5Ctx "h" 1 "p1" "major" false c5Hints c5Entry
      (by decide) (by decide)).2.2 rfl
    { player_id := "p2", tier := "vague", text := "Indice vague" }
    (by decide) (by decide)

/-- Branch equation: unknown hint id. -/
theorem destroy_hint_notFound (st : DState) (hid kid : String)
    (h : hintLookup st hid = none) :
    destroy_hint st hid kid = (st, Except.error DestroyErr.notFound) := by
  unfold destroy_hint; rw [h]

/-- Branch equation: hint already destroyed. -/
theorem destroy_hint_already (st : DState) (hid kid : String) (t : HintEntry)
    (h : hintLookup st hid = some t) (hd : t.destroyed = true) :
    destroy_hint st hid kid = (st, Except.error DestroyErr.alreadyDestroyed) := by
  unfold destroy_hint; rw [h]; simp [hd]

/-- Branch equation: caller is not the designated culprit. -/
theorem destroy_hint_notAuth (st : DState) (hid kid : String) (t : HintEntry)
    (h : hintLookup st hid = some t) (hd : t.destroyed = false)
    (hc : culpritBlocks st.culprit_player_id kid = true) :
    destroy_hint st hid kid = (st, Except.error DestroyErr.notAuthorized) := by
  unfold destroy_hint; rw [h]; simp [hd, hc]

/-- Branch equation: quota exhausted. -/
theorem destroy_hint_quota (st : DState) (hid kid : String) (t : HintEntry)
    (h : hintLookup st hid = some t) (hd : t.destroyed = false)
    (hc : culpritBlocks st.culprit_player_id kid = false)
    (hq : quotaExhausted st) :
    destroy_hint st hid kid = (st, Except.error DestroyErr.quotaReached) := by
  unfold destroy_hint; rw [h]; simp [hd, hc, hq]

/-- Branch equation: success. -/
theorem destroy_hint_success (st : DState) (hid kid : String) (t : HintEntry)
    (h : hintLookup st hid = some t) (hd : t.destroyed = false)
    (hc : culpritBlocks st.culprit_player_id kid = false)
    (hq : ¬ quotaExhausted st) :
    destroy_hint st hid kid =
      ({ st with
          hints_history := updateFirstHint st.hints_history hid
            { t with destroyed := true, destroyed_by := some kid },
          destroy_used := st.destroy_used + 1 },
        Except.ok { t with destroyed := true, destroyed_by := some kid }) := by
  unfold destroy_hint; rw [h]; simp [hd, hc, hq]

/-- The destroy counter is incremented by exactly one on every
successful `destroy_hint`. -/
theorem destroy_used_increment (st : DState) (hid kid : String) (out : HintEntry)
    (hok : (destroy_hint st hid kid).2 = Except.ok out) :
    (destroy_hint st hid kid).1.destroy_used = st.destroy_used + 1 := by
  by_cases hn : hintLookup st hid = none
  · rw [destroy_hint_notFound st hid kid hn] at hok; cases hok
  · obtain ⟨t, hfind⟩ := Option.ne_none_iff_exists'.mp hn
    by_cases hdes : t.destroyed = true
    · rw [destroy_hint_already st hid kid t hfind hdes] at hok; cases hok
    · have hdf : t.destroyed = false := by simpa using hdes
      by_cases hcb : culpritBlocks st.culprit_player_id kid = true
      · rw [destroy_hint_notAuth st hid kid t hfind hdf hcb] at hok; cases hok
      · have hcf : culpritBlocks st.culprit_player_id kid = false := by simpa using hcb
        by_cases hq : quotaExhausted st
        · rw [destroy_hint_quota st hid kid t hfind hdf hcf hq] at hok; cases hok
        · rw [destroy_hint_success st hid kid t hfind hdf hcf hq]

/-- C6: `destroy_hint` fails exactly when the hint is unknown, already
destroyed, the caller is not the designated culprit, or the destroy
quota is exhausted; a failure leaves the state untouched; a success
flips the found record's destroyed flag from false to true (recording
the destroyer), rewrites exactly that history entry and increments the
quota counter by one. -/
theorem C6_destroy_hint_contract (st : DState) (hid kid : String) :
    ((∃ e, (destroy_hint st hid kid).2 = Except.error e) ↔
      (hintLookup st hid = none ∨
       (∃ t, hintLookup st hid = some t ∧ t.destroyed = true) ∨
       culpritBlocks st.culprit_player_id kid = true ∨
       quotaExhausted st)) ∧
    ((∃ e, (destroy_hint st hid kid).2 = Except.error e) →
      (destroy_hint st hid kid).1 = st) ∧
    (∀ out, (destroy_hint st hid kid).2 = Except.ok out →
      ∃ t, hintLookup st hid = some t ∧ t.destroyed = false ∧
        out = { t with destroyed := true, destroyed_by := some kid } ∧
        (destroy_hint st hid kid).1.hints_history =
          updateFirstHint st.hints_history hid out ∧
        (destroy_hint st hid kid).1.destroy_used = st.destroy_used + 1) := by
  by_cases hn : hintLookup st hid = none
  · rw [destroy_hint_notFound st hid kid hn]
    refine ⟨iff_of_true ⟨DestroyErr.notFound, rfl⟩ (Or.inl hn), fun _ => rfl, ?_⟩
    intro out hok; cases hok
  · obtain ⟨t, hfind⟩ := Option.ne_none_iff_exists'.mp hn
    by_cases hdes : t.destroyed = true
    · rw [destroy_hint_already st hid kid t hfind hdes]
      refine ⟨iff_of_true ⟨DestroyErr.alreadyDestroyed, rfl⟩
        (Or.inr (Or.inl ⟨t, hfind, hdes⟩)), fun _ => rfl, ?_⟩
      intro out hok; cases hok
    · have hdf : t.destroyed = false := by simpa using hdes
      by_cases hcb : culpritBlocks st.culprit_player_id kid = true
      · rw [destroy_hint_notAuth st hid kid t hfind hdf hcb]
        refine ⟨iff_of_true ⟨DestroyErr.notAuthorized, rfl⟩
          (Or.inr (Or.inr (Or.inl hcb))), fun _ => rfl, ?_⟩
        intro out hok; cases hok
      · have hcf : culpritBlocks st.culprit_player_id kid = false := by simpa using hcb
        by_cases hq : quotaExhausted st
        · rw [destroy_hint_quota st hid kid t hfind hdf hcf hq]
          refine ⟨iff_of_true ⟨DestroyErr.quotaReached, rfl⟩
            (Or.inr (Or.inr (Or.inr hq))), fun _ => rfl, ?_⟩
          intro out hok; cases hok
        · rw [destroy_hint_success st hid kid t hfind hdf hcf hq]
          refine ⟨iff_of_false ?_ ?_, ?_, ?_⟩
          · rintro ⟨e, he⟩; cases he
          · rintro (h | ⟨t2, ht2, hd2⟩ | h | h)
            · exact hn h
            · rw [hfind] at ht2
              cases ht2
              rw [hd2] at hdf
              cases hdf
            · rw [hcf] at h; cases h
            · exact hq h
          · rintro ⟨e, he⟩; cases he
          · intro out hok
            have hout := (Except.ok.injEq _ _).mp hok
            refine ⟨t, hfind, hdf, hout.symm, ?_, rfl⟩
            rw [hout]

theorem C6_witness :
    ((destroy_hint (destroy_hint (destroy_hint c6St0 "h1" "k").1 "h2" "k").1
        "h3" "k").2 = Except.error DestroyErr.quotaReached) ∧
    ((destroy_hint (destroy_hint (destroy_hint c6St0 "h1" "k").1 "h2" "k").1
        "h3" "k").1 = (destroy_hint (destroy_hint c6St0 "h1" "k").1 "h2" "k").1) ∧
    ((destroy_hint c6St0 "h1" "k").1.destroy_used = 1) ∧
    ((destroy_hint (destroy_hint c6St0 "h1" "k").1 "h2" "k").1.destroy_used = 2) :=
  ⟨by decide,
   (C6_destroy_hint_contract _ "h3" "k").2.1 ⟨DestroyErr.quotaReached, by decide⟩,
   by decide, by decide⟩

/-- C10: when the seed does not configure a usable quota (the value is
missing, integer zero, or not parseable as an integer — `int(...)`
raises), the resolved quota is 0, the quota guard is skipped, so
`destroy_hint` never fails with the quota-reached error — while the
counter still increments on every success. -/
theorem C10_missing_quota_unlimited (st : DState) (hid kid : String)
    (hq : st.destroy_quota_raw = SeedQuota.absent ∨
          st.destroy_quota_raw = SeedQuota.parsed 0 ∨
          st.destroy_quota_raw = SeedQuota.unparseable) :
    get_destroy_quota st.destroy_quota_raw = 0 ∧
    (destroy_hint st hid kid).2 ≠ Except.error DestroyErr.quotaReached ∧
    (∀ out, (destroy_hint st hid kid).2 = Except.ok out →
      (destroy_hint st hid kid).1.destroy_used = st.destroy_used + 1) := by
  have hq0 : get_destroy_quota st.destroy_quota_raw = 0 := by
    rcases hq with h | h | h <;> simp [get_destroy_quota, h]
  refine ⟨hq0, ?_, fun out hok => destroy_used_increment st hid kid out hok⟩
  have hnq : ¬ quotaExhausted st := by simp [quotaExhausted, hq0]
  unfold destroy_hint
  cases hfind : hintLookup st hid with
  | none => simp
  | some t =>
    by_cases hdes : t.destroyed = true
    · simp [hdes]
    · by_cases hcb : culpritBlocks st.culprit_player_id kid = true
      · simp [hdes, hcb]
      · simp [hdes, hcb, hnq]

theorem C10_witness :
    get_destroy_quota c10St.destroy_quota_raw = 0 ∧
    (destroy_hint c10St "h9" "anyone").2 ≠ Except.error DestroyErr.quotaReached ∧
    (destroy_hint c10St "h9" "anyone").1.destroy_used = 5 + 1 :=
  ⟨(C10_missing_quota_unlimited c10St "h9" "anyone"
      (Or.inr (Or.inr rfl))).1,
   (C10_missing_quota_unlimited c10St "h9" "anyone"
      (Or.inr (Or.inr rfl))).2.1,
   (C10_missing_quota_unlimited c10St "h9" "anyone"
      (Or.inr (Or.inr rfl))).2.2
     { hint_id := "h9", round_index := 2, discoverer_id := "p2",
       source_tier := "minor", shared := false, deliveries := [],
       other_tier := "vague", destroyed := true, destroyed_by := some "anyone" }
     (by decide)⟩

/-! ## Association list and set toolkit for the connection registry -/

theorem assocFind_nil [BEq α] (k : α) : assocFind ([] : List (α × β)) k = none := rfl

theorem assocFind_cons [BEq α] (kv : α × β) (l : List (α × β)) (k : α) :
    assocFind (kv :: l) k = if kv.1 == k then some kv.2 else assocFind l k := by
  by_cases h : kv.1 == k <;> simp [assocFind, List.find?_cons, h]

theorem assocFind_assocSet [BEq α] [LawfulBEq α] (l : List (α × β)) (k : α) (v : β) :
    assocFind (assocSet l k v) k = some v := by
  induction l with
  | nil => simp [assocSet, assocFind_cons]
  | cons kv rest ih =>
    by_cases h : kv.1 == k
    · simp [assocSet, h, assocFind_cons]
    · simp [assocSet, h, assocFind_cons, ih]

theorem assocFind_assocSet_ne [BEq α] [LawfulBEq α] (l : List (α × β)) (k k' : α)
    (v : β) (h : k' ≠ k) : assocFind (assocSet l k v) k' = assocFind l k' := by
  induction l with
  | nil =>
    have hk : (k == k') = false := by simpa using fun hh => h hh.symm
    simp [assocSet, assocFind_cons, assocFind_nil, hk]
  | cons kv rest ih =>
    by_cases hh : kv.1 == k
    · have hke : kv.1 = k := by simpa using hh
      have hk1 : (k == k') = false := by simpa using fun hx => h hx.symm
      have hk2 : (kv.1 == k') = false := by
        rw [hke]; exact hk1
      simp [assocSet, hh, assocFind_cons, hk1, hk2]
    · by_cases hk' : kv.1 == k'
      · simp [assocSet, hh, assocFind_cons, hk']
      · simp [assocSet, hh, assocFind_cons, hk', ih]

theorem assocFind_assocDrop [BEq α] [LawfulBEq α] (l : List (α × β)) (k : α) :
    assocFind (assocDrop l k) k = none := by
  induction l with
  | nil => rfl
  | cons kv rest ih =>
    by_cases h : kv.1 == k
    · have h1 : assocDrop (kv :: rest) k = assocDrop rest k := by
        simp [assocDrop, List.filter_cons, h]
      rw [h1]; exact ih
    · have h1 : assocDrop (kv :: rest) k = kv :: assocDrop rest k := by
        simp [assocDrop, List.filter_cons, h]
      rw [h1, assocFind_cons, if_neg h]; exact ih

theorem assocFind_assocDrop_ne [BEq α] [LawfulBEq α] (l : List (α × β)) (k k' : α)
    (h : k' ≠ k) : assocFind (assocDrop l k) k' = assocFind l k' := by
  induction l with
  | nil => rfl
  | cons kv rest ih =>
    by_cases hh : kv.1 == k
    · have hke : kv.1 = k := by simpa using hh
      have hk2 : (kv.1 == k') = false := by
        rw [hke]; simpa using fun hx => h hx.symm
      simp [assocDrop, List.filter, hh, assocFind_cons, hk2, ih]
      exact ih
    · by_cases hk' : kv.1 == k'
      · simp [assocDrop, List.filter, hh, assocFind_cons, hk']
      · simp [assocDrop, List.filter, hh, assocFind_cons, hk']
        exact ih

theorem mem_assocDrop [BEq α] [LawfulBEq α] {l : List (α × β)} {k : α} {kv : α × β} :
    kv ∈ assocDrop l k ↔ kv ∈ l ∧ ¬ kv.1 = k := by
  unfold assocDrop
  simp [List.mem_filter]

theorem mem_assocSet [BEq α] [LawfulBEq α] {l : List (α × β)} {k : α} {v : β}
    {kv : α × β} (h : kv ∈ assocSet l k v) : kv = (k, v) ∨ kv ∈ l := by
  induction l with
  | nil => simpa [assocSet] using h
  | cons hd rest ih =>
    by_cases hh : hd.1 == k
    · simp only [assocSet, hh, if_true] at h
      rcases List.mem_cons.mp h with h1 | h1
      · exact Or.inl h1
      · exact Or.inr (List.mem_cons_of_mem _ h1)
    · simp only [assocSet, hh, if_false] at h
      rcases List.mem_cons.mp h with h1 | h1
      · exact Or.inr (h1 ▸ List.mem_cons_self hd rest)
      · rcases ih h1 with h2 | h2
        · exact Or.inl h2
        · exact Or.inr (List.mem_cons_of_mem _ h2)

theorem mem_assocSet_nodup [BEq α] [LawfulBEq α] {l : List (α × β)} {k : α} {v : β}
    {kv : α × β} (hnd : (l.map Prod.fst).Nodup) (h : kv ∈ assocSet l k v) :
    kv = (k, v) ∨ (kv ∈ l ∧ ¬ kv.1 = k) := by
  induction l with
  | nil => simpa [assocSet] using h
  | cons hd rest ih =>
    have hnd2 : (rest.map Prod.fst).Nodup := (List.nodup_cons.mp hnd).2
    have hhd : hd.1 ∉ rest.map Prod.fst := (List.nodup_cons.mp hnd).1
    by_cases hh : hd.1 == k
    · have hke : hd.1 = k := by simpa using hh
      simp only [assocSet, hh, if_true] at h
      rcases List.mem_cons.mp h with h1 | h1
      · exact Or.inl h1
      · refine Or.inr ⟨List.mem_cons_of_mem _ h1, fun hk1 => ?_⟩
        exact hhd (hke ▸ hk1 ▸ List.mem_map_of_mem Prod.fst h1)
    · simp only [assocSet, hh, if_false] at h
      rcases List.mem_cons.mp h with h1 | h1
      · subst h1
        exact Or.inr ⟨List.mem_cons_self kv rest, by simpa using hh⟩
      · rcases ih hnd2 h1 with h2 | h2
        · exact Or.inl h2
        · exact Or.inr ⟨List.mem_cons_of_mem _ h2.1, h2.2⟩

theorem keys_assocSet_sub [BEq α] [LawfulBEq α] {l : List (α × β)} {k x : α} {v : β}
    (h : x ∈ (assocSet l k v).map Prod.fst) : x ∈ l.map Prod.fst ∨ x = k := by
  rcases List.mem_map.mp h with ⟨kv, hkv, hx⟩
  rcases mem_assocSet hkv with h1 | h1
  · right; rw [← hx, h1]
  · left; exact hx ▸ List.mem_map_of_mem Prod.fst h1

theorem keysNodup_assocSet [BEq α] [LawfulBEq α] {l : List (α × β)} {k : α} {v : β}
    (hnd : (l.map Prod.fst).Nodup) : ((assocSet l k v).map Prod.fst).Nodup := by
  induction l with
  | nil => simp [assocSet]
  | cons hd rest ih =>
    have hnd2 : (rest.map Prod.fst).Nodup := (List.nodup_cons.mp hnd).2
    have hhd : hd.1 ∉ rest.map Prod.fst := (List.nodup_cons.mp hnd).1
    by_cases hh : hd.1 == k
    · have hke : hd.1 = k := by simpa using hh
      have hgoal : (assocSet (hd :: rest) k v).map Prod.fst =
          k :: rest.map Prod.fst := by
        simp [assocSet, hh]
      rw [hgoal]
      exact List.nodup_cons.mpr ⟨hke ▸ hhd, hnd2⟩
    · have hne : ¬ hd.1 = k := by simpa using hh
      have hgoal : (assocSet (hd :: rest) k v).map Prod.fst =
          hd.1 :: (assocSet rest k v).map Prod.fst := by
        simp [assocSet, hh]
      rw [hgoal]
      refine List.nodup_cons.mpr ⟨fun hmem => ?_, ih hnd2⟩
      rcases keys_assocSet_sub hmem with h1 | h1
      · exact hhd h1
      · exact hne h1

theorem keysNodup_assocDrop [BEq α] [LawfulBEq α] {l : List (α × β)} {k : α}
    (hnd : (l.map Prod.fst).Nodup) : ((assocDrop l k).map Prod.fst).Nodup := by
  have hsub : List.Sublist (assocDrop l k) l := List.filter_sublist l
  exact hnd.sublist (List.Sublist.map Prod.fst hsub)

theorem assocFind_some_mem [BEq α] [LawfulBEq α] {l : List (α × β)} {k : α} {v : β}
    (h : assocFind l k = some v) : (k, v) ∈ l := by
  induction l with
  | nil => cases h
  | cons kv rest ih =>
    rw [assocFind_cons] at h
    by_cases hh : kv.1 == k
    · rw [if_pos hh] at h
      have hke : kv.1 = k := by simpa using hh
      have hv : kv.2 = v := by simpa using h
      have hkv : kv = (k, v) := Prod.ext hke hv
      rw [← hkv]
      exact List.mem_cons_self kv rest
    · rw [if_neg hh] at h
      exact List.mem_cons_of_mem _ (ih h)

theorem assocFind_eq_some_of_mem [BEq α] [LawfulBEq α] {l : List (α × β)} {k : α}
    {v : β} (hnd : (l.map Prod.fst).Nodup) (h : (k, v) ∈ l) :
    assocFind l k = some v := by
  induction l with
  | nil => cases h
  | cons kv rest ih =>
    have hnd2 : (rest.map Prod.fst).Nodup := (List.nodup_cons.mp hnd).2
    have hhd : kv.1 ∉ rest.map Prod.fst := (List.nodup_cons.mp hnd).1
    rw [assocFind_cons]
    rcases List.mem_cons.mp h with h1 | h1
    · rw [← h1]; simp
    · by_cases hh : kv.1 == k
      · exfalso
        have hke : kv.1 = k := by simpa using hh
        exact hhd (hke ▸ (List.mem_map_of_mem Prod.fst h1 : (k, v).1 ∈ rest.map Prod.fst))
      · rw [if_neg hh]; exact ih hnd2 h1

theorem assocSet_self [BEq α] [LawfulBEq α] {l : List (α × β)} {k : α} {v : β}
    (h : assocFind l k = some v) : assocSet l k v = l := by
  induction l with
  | nil => cases h
  | cons kv rest ih =>
    rw [assocFind_cons] at h
    by_cases hh : kv.1 == k
    · rw [if_pos hh] at h
      have hke : kv.1 = k := by simpa using hh
      have hv : kv.2 = v := by simpa using h
      simp [assocSet, hh, ← hke, ← hv]
    · rw [if_neg hh] at h
      simp [assocSet, hh, ih h]

theorem mem_setDiscard {l : List Nat} {x w : Nat} :
    w ∈ setDiscard l x ↔ w ∈ l ∧ w ≠ x := by
  simp [setDiscard, List.mem_filter]

theorem setDiscard_eq_self {l : List Nat} {x : Nat} (h : x ∉ l) :
    setDiscard l x = l := by
  refine List.filter_eq_self.mpr (fun a ha => ?_)
  simp only [Bool.not_eq_true']
  exact decide_eq_false (fun he => h (by simpa [he] using ha))

theorem setDiscard_nodup {l : List Nat} {x : Nat} (h : l.Nodup) :
    (setDiscard l x).Nodup := h.filter _

theorem length_setDiscard_of_nodup {l : List Nat} {x : Nat} (hnd : l.Nodup)
    (hx : x ∈ l) : (setDiscard l x).length + 1 = l.length := by
  induction l with
  | nil => cases hx
  | cons a rest ih =>
    have hnd2 := (List.nodup_cons.mp hnd).2
    have ha := (List.nodup_cons.mp hnd).1
    by_cases hax : a = x
    · subst hax
      have h1 : setDiscard (a :: rest) a = setDiscard rest a := by
        simp [setDiscard, List.filter_cons]
      rw [h1, setDiscard_eq_self ha]
      simp
    · have hx2 : x ∈ rest := by
        rcases List.mem_cons.mp hx with h1 | h1
        · exact absurd h1.symm hax
        · exact h1
      have h1 : setDiscard (a :: rest) x = a :: setDiscard rest x := by
        simp [setDiscard, List.filter_cons, hax]
      rw [h1]
      have := ih hnd2 hx2
      simp only [List.length_cons]
      omega

theorem mem_setAdd {l : List Nat} {x w : Nat} :
    w ∈ setAdd l x ↔ w ∈ l ∨ w = x := by
  by_cases h : x ∈ l
  · simp only [setAdd, if_pos h]
    constructor
    · exact fun hw => Or.inl hw
    · rintro (hw | hw)
      · exact hw
      · exact hw ▸ h
  · simp [setAdd, if_neg h]

theorem setAdd_nodup {l : List Nat} {x : Nat} (h : l.Nodup) : (setAdd l x).Nodup := by
  by_cases hx : x ∈ l
  · simpa [setAdd, if_pos hx] using h
  · simp only [setAdd, if_neg hx]
    simpa [List.nodup_append] using ⟨h, fun hmem => hx hmem⟩

/-! ## Connection registry lemmas -/

theorem winv_mem_iff {st : WState} (hinv : WInv st) (ws : Nat) (pid : String) :
    ws ∈ bucketOf st pid ↔ wsPlayer st ws = some pid := by
  obtain ⟨h1, h2, h3, h4, h5, h6, h7⟩ := hinv
  constructor
  · intro hmem
    unfold bucketOf at hmem
    cases hfind : assocFind st.clients_by_player pid with
    | none => rw [hfind] at hmem; cases hmem
    | some b =>
      rw [hfind] at hmem
      exact h5 (pid, b) (assocFind_some_mem hfind) ws hmem
  · intro hws
    exact h6 (ws, pid) (assocFind_some_mem hws)

theorem winv_bucket_nodup {st : WState} (hinv : WInv st) (pid : String) :
    (bucketOf st pid).Nodup := by
  obtain ⟨h1, h2, h3, h4, h5, h6, h7⟩ := hinv
  unfold bucketOf
  cases hfind : assocFind st.clients_by_player pid with
  | none => simp
  | some b => exact h4 (pid, b) (assocFind_some_mem hfind)

theorem winv_pending_none {st : WState} (hinv : WInv st) :
    ∀ ws ∈ st.pending, wsPlayer st ws = none := hinv.2.2.2.2.2.2.1

theorem winv_wtp_ne_empty {st : WState} (hinv : WInv st) :
    ∀ kv ∈ st.ws_to_player, kv.2 ≠ "" := hinv.2.2.2.2.2.2.2

theorem winv_wsPlayer_ne_empty {st : WState} (hinv : WInv st) {ws : Nat}
    {prev : String} (h : wsPlayer st ws = some prev) : prev ≠ "" :=
  winv_wtp_ne_empty hinv (ws, prev) (assocFind_some_mem h)

theorem winv_of_pointwise (st : WState)
    (h1 : (st.clients_by_player.map Prod.fst).Nodup)
    (h2 : (st.ws_to_player.map Prod.fst).Nodup)
    (h3 : st.pending.Nodup)
    (h4 : ∀ q, (bucketOf st q).Nodup)
    (h5 : ∀ q w, w ∈ bucketOf st q → wsPlayer st w = some q)
    (h6 : ∀ w q, wsPlayer st w = some q → w ∈ bucketOf st q)
    (h7 : ∀ w ∈ st.pending, wsPlayer st w = none)
    (h8 : ∀ kv ∈ st.ws_to_player, kv.2 ≠ "") : WInv st := by
  have hbucket : ∀ kv ∈ st.clients_by_player, bucketOf st kv.1 = kv.2 := by
    intro kv hkv
    have hf : assocFind st.clients_by_player kv.1 = some kv.2 :=
      assocFind_eq_some_of_mem h1 (show (kv.1, kv.2) ∈ _ from hkv)
    unfold bucketOf
    rw [hf]
    rfl
  refine ⟨h1, h2, h3, ?_, ?_, ?_, h7, h8⟩
  · intro kv hkv
    have := h4 kv.1
    rwa [hbucket kv hkv] at this
  · intro kv hkv w hw
    exact h5 kv.1 w (by rw [hbucket kv hkv]; exact hw)
  · intro kv hkv
    have hfind : wsPlayer st kv.1 = some kv.2 := by
      unfold wsPlayer
      exact assocFind_eq_some_of_mem h2 (show (kv.1, kv.2) ∈ _ from hkv)
    exact h6 kv.1 kv.2 hfind

theorem unlink_pending (st : WState) (ws : Nat) :
    (unlink_ws_from_current_player st ws).pending = setDiscard st.pending ws := by
  unfold unlink_ws_from_current_player
  cases h : wsPlayer st ws with
  | none => rfl
  | some prev =>
    dsimp only
    split
    · split
      · split <;> rfl
      · rfl
    · rfl

theorem unlink_wsPlayer_self (st : WState) (ws : Nat) :
    wsPlayer (unlink_ws_from_current_player st ws) ws = none := by
  unfold unlink_ws_from_current_player
  cases h : wsPlayer st ws with
  | none => exact h
  | some prev =>
    dsimp only
    split
    · split
      · split
        · exact assocFind_assocDrop _ _
        · exact assocFind_assocDrop _ _
      · exact assocFind_assocDrop _ _
    · exact assocFind_assocDrop _ _

theorem unlink_wsPlayer_ne (st : WState) (ws w : Nat) (hw : w ≠ ws) :
    wsPlayer (unlink_ws_from_current_player st ws) w = wsPlayer st w := by
  unfold unlink_ws_from_current_player
  cases h : wsPlayer st ws with
  | none => rfl
  | some prev =>
    dsimp only
    split
    · split
      · split
        · exact assocFind_assocDrop_ne _ _ _ hw
        · exact assocFind_assocDrop_ne _ _ _ hw
      · exact assocFind_assocDrop_ne _ _ _ hw
    · exact assocFind_assocDrop_ne _ _ _ hw

theorem unlink_bucket (st : WState) (ws : Nat) (hinv : WInv st) (q : String) :
    bucketOf (unlink_ws_from_current_player st ws) q =
      setDiscard (bucketOf st q) ws := by
  cases h : wsPlayer st ws with
  | none =>
    have hq : ws ∉ bucketOf st q := by
      intro hmem
      have hm := (winv_mem_iff hinv ws q).mp hmem
      rw [hm] at h; cases h
    rw [setDiscard_eq_self hq]
    unfold unlink_ws_from_current_player
    rw [h]
    rfl
  | some prev =>
    have hwprev : ws ∈ bucketOf st prev := (winv_mem_iff hinv ws prev).mpr h
    have hbne : bucketOf st prev ≠ [] := by
      intro he; rw [he] at hwprev; cases hwprev
    have hprev : prev ≠ "" := winv_wsPlayer_ne_empty hinv h
    unfold unlink_ws_from_current_player
    rw [h]
    dsimp only
    rw [if_pos hprev, if_pos ⟨hbne, hwprev⟩]
    by_cases hq : q = prev
    · subst hq
      by_cases hemp : (setDiscard (bucketOf st q) ws).isEmpty
      · rw [if_pos hemp]
        have h1 : setDiscard (bucketOf st q) ws = [] := by
          simpa using hemp
        unfold bucketOf
        rw [assocFind_assocDrop]
        simpa using h1.symm
      · rw [if_neg hemp]
        unfold bucketOf
        rw [assocFind_assocSet]
        rfl
    · have hnq : ws ∉ bucketOf st q := by
        intro hmem
        have hm := (winv_mem_iff hinv ws q).mp hmem
        rw [hm] at h
        exact hq (Option.some.inj h)
      rw [setDiscard_eq_self hnq]
      by_cases hemp : (setDiscard (bucketOf st prev) ws).isEmpty
      · rw [if_pos hemp]
        unfold bucketOf
        rw [assocFind_assocDrop_ne _ _ _ hq]
      · rw [if_neg hemp]
        unfold bucketOf
        rw [assocFind_assocSet_ne _ _ _ _ hq]

theorem unlink_keys (st : WState) (ws : Nat)
    (h1 : (st.clients_by_player.map Prod.fst).Nodup) :
    ((unlink_ws_from_current_player st ws).clients_by_player.map Prod.fst).Nodup := by
  unfold unlink_ws_from_current_player
  cases h : wsPlayer st ws with
  | none => exact h1
  | some prev =>
    dsimp only
    split
    · split
      · split
        · exact keysNodup_assocDrop h1
        · exact keysNodup_assocSet h1
      · exact h1
    · exact h1

theorem unlink_wtpKeys (st : WState) (ws : Nat)
    (h2 : (st.ws_to_player.map Prod.fst).Nodup) :
    ((unlink_ws_from_current_player st ws).ws_to_player.map Prod.fst).Nodup := by
  unfold unlink_ws_from_current_player
  cases h : wsPlayer st ws with
  | none => exact h2
  | some prev =>
    dsimp only
    split
    · split
      · split
        · exact keysNodup_assocDrop h2
        · exact keysNodup_assocDrop h2
      · exact keysNodup_assocDrop h2
    · exact keysNodup_assocDrop h2

theorem unlink_wtp_sub (st : WState) (ws : Nat) :
    ∀ kv ∈ (unlink_ws_from_current_player st ws).ws_to_player,
      kv ∈ st.ws_to_player := by
  unfold unlink_ws_from_current_player
  intro kv
  cases h : wsPlayer st ws with
  | none => exact id
  | some prev =>
    dsimp only
    split
    · split
      · split
        · exact fun hm => (mem_assocDrop.mp hm).1
        · exact fun hm => (mem_assocDrop.mp hm).1
      · exact fun hm => (mem_assocDrop.mp hm).1
    · exact fun hm => (mem_assocDrop.mp hm).1

theorem winv_unlink (st : WState) (ws : Nat) (hinv : WInv st) :
    WInv (unlink_ws_from_current_player st ws) := by
  refine winv_of_pointwise _ (unlink_keys st ws hinv.1) (unlink_wtpKeys st ws hinv.2.1)
    ?_ ?_ ?_ ?_ ?_ ?_
  · rw [unlink_pending]; exact setDiscard_nodup hinv.2.2.1
  · intro q
    rw [unlink_bucket st ws hinv q]
    exact setDiscard_nodup (winv_bucket_nodup hinv q)
  · intro q w hw
    rw [unlink_bucket st ws hinv q] at hw
    obtain ⟨hw1, hw2⟩ := mem_setDiscard.mp hw
    rw [unlink_wsPlayer_ne st ws w hw2]
    exact (winv_mem_iff hinv w q).mp hw1
  · intro w q hwq
    by_cases hwws : w = ws
    · subst hwws
      rw [unlink_wsPlayer_self] at hwq; cases hwq
    · rw [unlink_wsPlayer_ne st ws w hwws] at hwq
      rw [unlink_bucket st ws hinv q]
      exact mem_setDiscard.mpr ⟨(winv_mem_iff hinv w q).mpr hwq, hwws⟩
  · intro w hw
    rw [unlink_pending] at hw
    obtain ⟨hw1, hw2⟩ := mem_setDiscard.mp hw
    rw [unlink_wsPlayer_ne st ws w hw2]
    exact winv_pending_none hinv w hw1
  · intro kv hkv
    exact winv_wtp_ne_empty hinv kv (unlink_wtp_sub st ws kv hkv)

theorem winv_connect (st : WState) (ws : Nat) (hinv : WInv st)
    (hfresh : wsPlayer st ws = none) : WInv (connect st ws) := by
  obtain ⟨h1, h2, h3, h4, h5, h6, h7, h8⟩ := hinv
  refine ⟨h1, h2, setAdd_nodup h3, h4, h5, h6, ?_, h8⟩
  intro w hw
  rcases mem_setAdd.mp hw with h | h
  · exact h7 w h
  · subst h; exact hfresh

theorem sendStep_live (dead : Nat → Bool) (st : WState) (n c : Nat)
    (h : dead c = false) : sendStep dead (st, n) c = (st, n + 1) := by
  simp [sendStep, send_json_one, h]

theorem sendStep_dead (dead : Nat → Bool) (st : WState) (n c : Nat)
    (h : dead c = true) :
    sendStep dead (st, n) c = (unlink_ws_from_current_player st c, n) := by
  simp [sendStep, send_json_one, h]

theorem winv_sendFold (dead : Nat → Bool) :
    ∀ (conns : List Nat) (st : WState) (n : Nat), WInv st →
      WInv ((List.foldl (sendStep dead) (st, n) conns).1) := by
  intro conns
  induction conns with
  | nil => intro st n h; exact h
  | cons c rest ih =>
    intro st n h
    rw [List.foldl_cons]
    by_cases hd : dead c
    · rw [sendStep_dead dead st n c hd]
      exact ih _ _ (winv_unlink st c h)
    · rw [sendStep_live dead st n c (by simpa using hd)]
      exact ih _ _ h

theorem winv_send (dead : Nat → Bool) (st : WState) (p : String) (hinv : WInv st) :
    WInv ((send_to_player dead st p).1) := by
  unfold send_to_player
  exact winv_sendFold dead (bucketOf st p) st 0 hinv

theorem identify_pending (st : WState) (ws : Nat) (pid : String) :
    (identify st ws pid).pending = setDiscard st.pending ws := rfl

theorem identify_wsPlayer_self (st : WState) (ws : Nat) (pid : String) :
    wsPlayer (identify st ws pid) ws = some pid :=
  assocFind_assocSet _ _ _

theorem identify_wsPlayer_ne (st : WState) (ws : Nat) (pid : String) (w : Nat)
    (hw : w ≠ ws) : wsPlayer (identify st ws pid) w = wsPlayer st w :=
  assocFind_assocSet_ne _ _ _ _ hw

theorem identify_bucket_pid (st : WState) (ws : Nat) (pid : String) :
    bucketOf (identify st ws pid) pid = setAdd (bucketOf st pid) ws := by
  unfold identify
  cases h : wsPlayer st ws with
  | none =>
    dsimp only
    unfold bucketOf
    rw [assocFind_assocSet]
    rfl
  | some prev =>
    dsimp only
    by_cases hp : prev ≠ "" ∧ prev ≠ pid
    · rw [if_pos hp]
      have hp2 : pid ≠ prev := fun he => hp.2 he.symm
      split
      · split
        · unfold bucketOf
          rw [assocFind_assocSet, assocFind_assocDrop_ne _ _ _ hp2]
          rfl
        · unfold bucketOf
          rw [assocFind_assocSet, assocFind_assocSet_ne _ _ _ _ hp2]
          rfl
      · unfold bucketOf
        rw [assocFind_assocSet]
        rfl
    · rw [if_neg hp]
      unfold bucketOf
      rw [assocFind_assocSet]
      rfl

theorem identify_bucket_ne (st : WState) (ws : Nat) (pid q : String)
    (hinv : WInv st) (hq : q ≠ pid) :
    bucketOf (identify st ws pid) q = setDiscard (bucketOf st q) ws := by
  unfold identify
  cases h : wsPlayer st ws with
  | none =>
    dsimp only
    have hnq : ws ∉ bucketOf st q := by
      intro hmem
      have hm := (winv_mem_iff hinv ws q).mp hmem
      rw [hm] at h; cases h
    rw [setDiscard_eq_self hnq]
    unfold bucketOf
    rw [assocFind_assocSet_ne _ _ _ _ hq]
  | some prev =>
    dsimp only
    have hprev : prev ≠ "" := winv_wsPlayer_ne_empty hinv h
    by_cases hpp : prev ≠ pid
    · rw [if_pos ⟨hprev, hpp⟩]
      have hwb : ws ∈ bucketOf st prev := (winv_mem_iff hinv ws prev).mpr h
      have hbne : bucketOf st prev ≠ [] := by
        intro he; rw [he] at hwb; cases hwb
      rw [if_pos ⟨hbne, hwb⟩]
      by_cases hqprev : q = prev
      · subst hqprev
        by_cases hemp : (setDiscard (bucketOf st q) ws).isEmpty
        · rw [if_pos hemp]
          have h1 : setDiscard (bucketOf st q) ws = [] := by simpa using hemp
          unfold bucketOf
          rw [assocFind_assocSet_ne _ _ _ _ hq, assocFind_assocDrop]
          simpa using h1.symm
        · rw [if_neg hemp]
          unfold bucketOf
          rw [assocFind_assocSet_ne _ _ _ _ hq, assocFind_assocSet]
          rfl
      · have hnq : ws ∉ bucketOf st q := by
          intro hmem
          have hm := (winv_mem_iff hinv ws q).mp hmem
          rw [hm] at h
          exact hqprev (Option.some.inj h)
        rw [setDiscard_eq_self hnq]
        by_cases hemp : (setDiscard (bucketOf st prev) ws).isEmpty
        · rw [if_pos hemp]
          unfold bucketOf
          rw [assocFind_assocSet_ne _ _ _ _ hq, assocFind_assocDrop_ne _ _ _ hqprev]
        · rw [if_neg hemp]
          unfold bucketOf
          rw [assocFind_assocSet_ne _ _ _ _ hq, assocFind_assocSet_ne _ _ _ _ hqprev]
    · rw [if_neg (fun hc => hpp hc.2)]
      have hpe : prev = pid := not_not.mp hpp
      subst hpe
      have hnq : ws ∉ bucketOf st q := by
        intro hmem
        have hm := (winv_mem_iff hinv ws q).mp hmem
        rw [hm] at h
        exact hq (Option.some.inj h)
      rw [setDiscard_eq_self hnq]
      unfold bucketOf
      rw [assocFind_assocSet_ne _ _ _ _ hq]

theorem identify_keys (st : WState) (ws : Nat) (pid : String)
    (h1 : (st.clients_by_player.map Prod.fst).Nodup) :
    ((identify st ws pid).clients_by_player.map Prod.fst).Nodup := by
  unfold identify
  cases h : wsPlayer st ws with
  | none => exact keysNodup_assocSet h1
  | some prev =>
    dsimp only
    split
    · split
      · split
        · exact keysNodup_assocSet (keysNodup_assocDrop h1)
        · exact keysNodup_assocSet (keysNodup_assocSet h1)
      · exact keysNodup_assocSet h1
    · exact keysNodup_assocSet h1

theorem winv_identify (st : WState) (ws : Nat) (pid : String) (hinv : WInv st)
    (hpid : pid ≠ "") : WInv (identify st ws pid) := by
  refine winv_of_pointwise _ (identify_keys st ws pid hinv.1)
    (keysNodup_assocSet hinv.2.1) ?_ ?_ ?_ ?_ ?_ ?_
  · rw [identify_pending]; exact setDiscard_nodup hinv.2.2.1
  · intro q
    by_cases hq : q = pid
    · subst hq
      rw [identify_bucket_pid]
      exact setAdd_nodup (winv_bucket_nodup hinv q)
    · rw [identify_bucket_ne st ws pid q hinv hq]
      exact setDiscard_nodup (winv_bucket_nodup hinv q)
  · intro q w hw
    by_cases hwws : w = ws
    · subst hwws
      by_cases hq : q = pid
      · subst hq; exact identify_wsPlayer_self st w q
      · exfalso
        rw [identify_bucket_ne st w pid q hinv hq] at hw
        exact (mem_setDiscard.mp hw).2 rfl
    · rw [identify_wsPlayer_ne st ws pid w hwws]
      by_cases hq : q = pid
      · subst hq
        rw [identify_bucket_pid] at hw
        rcases mem_setAdd.mp hw with hmem | hmem
        · exact (winv_mem_iff hinv w q).mp hmem
        · exact absurd hmem hwws
      · rw [identify_bucket_ne st ws pid q hinv hq] at hw
        exact (winv_mem_iff hinv w q).mp (mem_setDiscard.mp hw).1
  · intro w q hwq
    by_cases hwws : w = ws
    · subst hwws
      rw [identify_wsPlayer_self] at hwq
      have hqpid : q = pid := (Option.some.inj hwq).symm
      subst hqpid
      rw [identify_bucket_pid]
      exact mem_setAdd.mpr (Or.inr rfl)
    · rw [identify_wsPlayer_ne st ws pid w hwws] at hwq
      by_cases hq : q = pid
      · subst hq
        rw [identify_bucket_pid]
        exact mem_setAdd.mpr (Or.inl ((winv_mem_iff hinv w q).mpr hwq))
      · rw [identify_bucket_ne st ws pid q hinv hq]
        exact mem_setDiscard.mpr ⟨(winv_mem_iff hinv w q).mpr hwq, hwws⟩
  · intro w hw
    rw [identify_pending] at hw
    obtain ⟨hw1, hw2⟩ := mem_setDiscard.mp hw
    rw [identify_wsPlayer_ne st ws pid w hw2]
    exact winv_pending_none hinv w hw1
  · intro kv hkv
    rcases mem_assocSet hkv with h1 | h1
    · rw [h1]; exact hpid
    · exact winv_wtp_ne_empty hinv kv h1

theorem identify_noop (st : WState) (ws : Nat) (pid : String) (hinv : WInv st)
    (h : wsPlayer st ws = some pid) : identify st ws pid = st := by
  have hpend : ws ∉ st.pending := by
    intro hmem
    have hnone := winv_pending_none hinv ws hmem
    rw [h] at hnone; cases hnone
  have hb : ws ∈ bucketOf st pid := (winv_mem_iff hinv ws pid).mpr h
  obtain ⟨b, hfb⟩ : ∃ b, assocFind st.clients_by_player pid = some b := by
    cases hf : assocFind st.clients_by_player pid with
    | none =>
      unfold bucketOf at hb; rw [hf] at hb; cases hb
    | some b => exact ⟨b, rfl⟩
  have hbb : bucketOf st pid = b := by unfold bucketOf; rw [hfb]; rfl
  unfold identify
  rw [h]
  dsimp only
  rw [if_neg (by simp)]
  rw [hfb]
  dsimp only [Option.getD]
  have hadd : setAdd b ws = b := by
    unfold setAdd
    rw [if_pos (hbb ▸ hb)]
  rw [hadd, assocSet_self hfb, assocSet_self h, setDiscard_eq_self hpend]

theorem winv_foldl (ops : List WOp) :
    ∀ st, WInv st → ValidFrom st ops → WInv (ops.foldl applyOp st) := by
  induction ops with
  | nil => intro st h _; exact h
  | cons op rest ih =>
    intro st h hv
    rw [List.foldl_cons]
    obtain ⟨hop, hrest⟩ := hv
    refine ih (applyOp st op) ?_ hrest
    cases op with
    | connectOp ws => exact winv_connect st ws h hop
    | identifyOp ws pid => exact winv_identify st ws pid h hop
    | disconnectOp ws => exact winv_unlink st ws h
    | sendOp pid dead => exact winv_send dead st pid h

/-- C9: starting from the empty registry, any realisable sequence of
connect / identify / disconnect / targeted-send operations preserves
the registry invariant; under the invariant a connection is in a
player's bucket exactly when the reverse map binds it to that player,
a pending connection is in no bucket (so every connection is in at most
one of the pending set and its player's bucket), and `identify` moves
the connection out of pending and out of every other player's bucket in
the same operation, as a strict no-op when re-identifying to the same
id. -/
theorem C9_registry_membership_invariant :
    (∀ ops : List WOp, ValidFrom initW ops → WInv (ops.foldl applyOp initW)) ∧
    (∀ st, WInv st → ∀ ws pid, (ws ∈ bucketOf st pid ↔ wsPlayer st ws = some pid)) ∧
    (∀ st, WInv st → ∀ ws ∈ st.pending, ∀ pid, ws ∉ bucketOf st pid) ∧
    (∀ st, WInv st → ∀ ws pid,
      ws ∉ (identify st ws pid).pending ∧
      ws ∈ bucketOf (identify st ws pid) pid ∧
      (∀ q, q ≠ pid → ws ∉ bucketOf (identify st ws pid) q) ∧
      (wsPlayer st ws = some pid → identify st ws pid = st)) := by
  refine ⟨fun ops hv => winv_foldl ops initW (by decide) hv,
    fun st hinv ws pid => winv_mem_iff hinv ws pid,
    fun st hinv ws hws pid hmem => ?_,
    fun st hinv ws pid => ⟨?_, ?_, ?_, identify_noop st ws pid hinv⟩⟩
  · have h1 := (winv_mem_iff hinv ws pid).mp hmem
    have h2 := winv_pending_none hinv ws hws
    rw [h1] at h2; cases h2
  · rw [identify_pending]
    intro hmem
    exact (mem_setDiscard.mp hmem).2 rfl
  · rw [identify_bucket_pid]
    exact mem_setAdd.mpr (Or.inr rfl)
  · intro q hq hmem
    rw [identify_bucket_ne st ws pid q hinv hq] at hmem
    exact (mem_setDiscard.mp hmem).2 rfl

theorem C9_witness :
    WInv ([WOp.connectOp 1, WOp.identifyOp 1 "p1", WOp.identifyOp 1 "p2",
           WOp.sendOp "p2" (fun w => w == 1)].foldl applyOp initW) ∧
    1 ∈ bucketOf (identify initW 1 "p1") "p1" :=
  ⟨C9_registry_membership_invariant.1 _ (by decide),
   (C9_registry_membership_invariant.2.2.2 initW (by decide) 1 "p1").2.1⟩

theorem sendFold_all_live (dead : Nat → Bool) :
    ∀ (conns : List Nat) (st : WState) (n : Nat), (∀ w ∈ conns, dead w = false) →
      List.foldl (sendStep dead) (st, n) conns = (st, n + conns.length) := by
  intro conns
  induction conns with
  | nil => intro st n _; simp
  | cons c rest ih =>
    intro st n h
    rw [List.foldl_cons, sendStep_live dead st n c (h c (List.mem_cons_self c rest))]
    rw [ih st (n + 1) (fun w hw => h w (List.mem_cons_of_mem c hw))]
    have harith : n + 1 + rest.length = n + (rest.length + 1) := by omega
    rw [List.length_cons, harith]

/-- With exactly one dead connection in the target bucket,
`send_to_player` evicts it, delivers to the others, and its state
effect is exactly the eviction. -/
theorem send_to_player_one_dead (st : WState) (p : String) (d : Nat)
    (dead : Nat → Bool) (hinv : WInv st) (hd : d ∈ bucketOf st p)
    (hdead : ∀ w ∈ bucketOf st p, dead w = (w == d)) :
    send_to_player dead st p =
      (unlink_ws_from_current_player st d,
        (setDiscard (bucketOf st p) d).length) := by
  obtain ⟨l1, l2, hsplit⟩ := List.append_of_mem hd
  have hnd := winv_bucket_nodup hinv p
  rw [hsplit] at hnd
  have hnd1 : l1.Nodup := (List.nodup_append.mp hnd).1
  have hdisj := (List.nodup_append.mp hnd).2.2
  have hnd2 : (d :: l2).Nodup := (List.nodup_append.mp hnd).2.1
  have hd1 : d ∉ l1 := fun hmem => (hdisj hmem) (List.mem_cons_self d l2)
  have hd2 : d ∉ l2 := (List.nodup_cons.mp hnd2).1
  have hlive1 : ∀ w ∈ l1, dead w = false := by
    intro w hw
    have hwc : w ∈ bucketOf st p := by
      rw [hsplit]; exact List.mem_append_left _ hw
    rw [hdead w hwc]
    exact beq_eq_false_iff_ne.mpr (fun he => hd1 (he ▸ hw))
  have hlive2 : ∀ w ∈ l2, dead w = false := by
    intro w hw
    have hwc : w ∈ bucketOf st p := by
      rw [hsplit]
      exact List.mem_append_right _ (List.mem_cons_of_mem d hw)
    rw [hdead w hwc]
    exact beq_eq_false_iff_ne.mpr (fun he => hd2 (he ▸ hw))
  have hdd : dead d = true := by
    rw [hdead d hd]; simp
  have hdiscard : setDiscard (l1 ++ d :: l2) d = l1 ++ l2 := by
    unfold setDiscard
    rw [List.filter_append]
    rw [show List.filter (fun y => !(y == d)) l1 = l1 from
      List.filter_eq_self.mpr (fun a ha => by
        simpa using fun (he : a = d) => hd1 (he ▸ ha))]
    rw [show List.filter (fun y => !(y == d)) (d :: l2) = l2 from by
      rw [List.filter_cons]
      simp only [beq_self_eq_true, Bool.not_true, Bool.false_eq_true, if_false]
      exact List.filter_eq_self.mpr (fun a ha => by
        simpa using fun (he : a = d) => hd2 (he ▸ ha))]
  unfold send_to_player
  rw [hsplit, List.foldl_append]
  rw [sendFold_all_live dead l1 st 0 hlive1]
  rw [List.foldl_cons, sendStep_dead dead st (0 + l1.length) d hdd]
  rw [sendFold_all_live dead l2 (unlink_ws_from_current_player st d)
    (0 + l1.length) hlive2]
  rw [hdiscard, List.length_append]
  have harith : 0 + l1.length + l2.length = l1.length + l2.length := by simp
  rw [harith]

/-- C7: for a player whose bucket holds N connections of which exactly
one is dead, `send_to_player` reports N−1 successes, removes the dead
connection from every registry structure (bucket, pending, reverse
map), leaves the live connections in place, and an immediately
following call over the same now-live connections reports N−1 again —
not N−2 — and changes nothing. -/
theorem C7_send_partial_failure (st : WState) (p : String) (d : Nat)
    (dead : Nat → Bool) (hinv : WInv st) (hd : d ∈ bucketOf st p)
    (hdead : ∀ w ∈ bucketOf st p, dead w = (w == d)) :
    (send_to_player dead st p).2 + 1 = (bucketOf st p).length ∧
    (∀ q, d ∉ bucketOf (send_to_player dead st p).1 q) ∧
    d ∉ (send_to_player dead st p).1.pending ∧
    wsPlayer (send_to_player dead st p).1 d = none ∧
    bucketOf (send_to_player dead st p).1 p = setDiscard (bucketOf st p) d ∧
    send_to_player dead (send_to_player dead st p).1 p =
      ((send_to_player dead st p).1, (send_to_player dead st p).2) := by
  have hmain := send_to_player_one_dead st p d dead hinv hd hdead
  have hcount : (setDiscard (bucketOf st p) d).length + 1 = (bucketOf st p).length :=
    length_setDiscard_of_nodup (winv_bucket_nodup hinv p) hd
  refine ⟨?_, ?_, ?_, ?_, ?_, ?_⟩
  · rw [hmain]; exact hcount
  · intro q
    rw [hmain]
    dsimp only
    rw [unlink_bucket st d hinv q]
    exact fun hmem => (mem_setDiscard.mp hmem).2 rfl
  · rw [hmain]
    dsimp only
    rw [unlink_pending]
    exact fun hmem => (mem_setDiscard.mp hmem).2 rfl
  · rw [hmain]
    dsimp only
    exact unlink_wsPlayer_self st d
  · rw [hmain]
    dsimp only
    exact unlink_bucket st d hinv p
  · rw [hmain]
    dsimp only
    have hbuck : bucketOf (unlink_ws_from_current_player st d) p =
        setDiscard (bucketOf st p) d := unlink_bucket st d hinv p
    unfold send_to_player
    rw [hbuck]
    have hlive : ∀ w ∈ setDiscard (bucketOf st p) d, dead w = false := by
      intro w hw
      obtain ⟨hw1, hw2⟩ := mem_setDiscard.mp hw
      rw [hdead w hw1]
      exact beq_eq_false_iff_ne.mpr hw2
    rw [sendFold_all_live dead _ _ 0 hlive]
    simp

theorem C7_witness :
    (send_to_player (fun w => w == 2)
      { clients_by_player := [("p", [1, 2])], pending := [],
        ws_to_player := [(1, "p"), (2, "p")] } "p").2 + 1 =
      (bucketOf
        { clients_by_player := [("p", [1, 2])], pending := [],
          ws_to_player := [(1, "p"), (2, "p")] } "p").length ∧
    bucketOf (send_to_player (fun w => w == 2)
      { clients_by_player := [("p", [1, 2])], pending := [],
        ws_to_player := [(1, "p"), (2, "p")] } "p").1 "p" =
      setDiscard (bucketOf
        { clients_by_player := [("p", [1, 2])], pending := [],
          ws_to_player := [(1, "p"), (2, "p")] } "p") 2 :=
  ⟨(C7_send_partial_failure
      { clients_by_player := [("p", [1, 2])], pending := [],
        ws_to_player := [(1, "p"), (2, "p")] } "p" 2 (fun w => w == 2)
      (by decide) (by decide) (by decide)).1,
   (C7_send_partial_failure
      { clients_by_player := [("p", [1, 2])], pending := [],
        ws_to_player := [(1, "p"), (2, "p")] } "p" 2 (fun w => w == 2)
      (by decide) (by decide) (by decide)).2.2.2.2.1⟩

/-! ## Fair allocation lemmas (C1, C2) -/

theorem insertLe_perm (le : α → α → Bool) (x : α) (l : List α) :
    (insertLe le x l).Perm (x :: l) := by
  induction l with
  | nil => exact List.Perm.refl _
  | cons y rest ih =>
    by_cases h : le x y
    · simp only [insertLe, h, if_true]
      exact List.Perm.refl _
    · simp only [insertLe, h, if_false]
      exact (ih.cons y).trans (List.Perm.swap x y rest)

theorem sortLe_perm (le : α → α → Bool) (l : List α) : (sortLe le l).Perm l := by
  induction l with
  | nil => exact List.Perm.refl _
  | cons x rest ih =>
    exact (insertLe_perm le x (sortLe le rest)).trans (ih.cons x)

theorem popMin_none_eq {l : List HeapEntry} (h : popMin l = none) : l = [] := by
  cases l with
  | nil => rfl
  | cons e rest =>
    exfalso
    cases hr : popMin rest with
    | none => simp [popMin, hr] at h
    | some pr =>
      rcases pr with ⟨m, r2⟩
      by_cases hlt : entLtb m e <;> simp [popMin, hr, hlt] at h

theorem entLtb_le {a b : HeapEntry} (h : entLtb a b = true) : a.1 ≤ b.1 := by
  unfold entLtb at h
  simp only [Bool.or_eq_true, Bool.and_eq_true, decide_eq_true_eq, beq_iff_eq] at h
  rcases h with h | ⟨h1, h2⟩
  · omega
  · omega

theorem entLtb_false_le {a b : HeapEntry} (h : entLtb a b = false) : b.1 ≤ a.1 := by
  by_cases hlt : a.1 < b.1
  · exfalso
    have htrue : entLtb a b = true := by
      unfold entLtb
      simp [hlt]
    rw [htrue] at h; cases h
  · omega

theorem popMin_perm : ∀ {l : List HeapEntry} {m : HeapEntry} {rest : List HeapEntry},
    popMin l = some (m, rest) → l.Perm (m :: rest) := by
  intro l
  induction l with
  | nil => intro m rest h; cases h
  | cons e r ih =>
    intro m rest h
    cases hr : popMin r with
    | none =>
      have hre : r = [] := popMin_none_eq hr
      subst hre
      simp only [popMin] at h
      cases h
      exact List.Perm.refl _
    | some pr =>
      rcases pr with ⟨m2, r2⟩
      have hperm : r.Perm (m2 :: r2) := ih hr
      by_cases hlt : entLtb m2 e
      · simp only [popMin, hr, hlt, if_true] at h
        cases h
        exact ((hperm.cons e).trans (List.Perm.swap m e r2))
      · simp only [popMin, hr, hlt, if_false] at h
        cases h
        exact List.Perm.refl _

theorem popMin_min : ∀ {l : List HeapEntry} {m : HeapEntry} {rest : List HeapEntry},
    popMin l = some (m, rest) → ∀ x ∈ l, m.1 ≤ x.1 := by
  intro l
  induction l with
  | nil => intro m rest h; cases h
  | cons e r ih =>
    intro m rest h x hx
    cases hr : popMin r with
    | none =>
      have hre : r = [] := popMin_none_eq hr
      subst hre
      simp only [popMin] at h
      cases h
      rcases List.mem_cons.mp hx with h1 | h1
      · subst h1; exact Nat.le_refl _
      · cases h1
    | some pr =>
      rcases pr with ⟨m2, r2⟩
      have hmin2 : ∀ y ∈ r, m2.1 ≤ y.1 := ih hr
      by_cases hlt : entLtb m2 e
      · simp only [popMin, hr, hlt, if_true] at h
        cases h
        rcases List.mem_cons.mp hx with h1 | h1
        · subst h1; exact entLtb_le hlt
        · exact hmin2 x h1
      · simp only [popMin, hr, hlt, if_false] at h
        cases h
        rcases List.mem_cons.mp hx with h1 | h1
        · subst h1; exact Nat.le_refl _
        · exact Nat.le_trans (entLtb_false_le (by simpa using hlt)) (hmin2 x h1)

theorem filter_length_set (f : Env → Bool) (l : List Env) :
    ∀ (i : Nat) (e' : Env), i < l.length →
      ((l.set i e').filter f).length + (if f (l.getD i dummyEnv) then 1 else 0) =
        (l.filter f).length + (if f e' then 1 else 0) := by
  induction l with
  | nil => intro i e' hi; simp at hi
  | cons a rest ih =>
    intro i e' hi
    cases i with
    | zero =>
      by_cases h1 : f e' <;> by_cases h2 : f a <;>
        simp [List.filter_cons, h1, h2]
    | succ j =>
      have hj : j < rest.length := by simpa using hi
      have hih := ih j e' hj
      rw [List.set_cons_succ, List.getD_cons_succ]
      by_cases h2 : f a
      · simp [List.filter_cons, h2] at hih ⊢
        omega
      · simp [List.filter_cons, h2] at hih ⊢
        omega

theorem getD_set_ne_env (l : List Env) (i j : Nat) (e' : Env) (hij : j ≠ i) :
    (l.set i e').getD j dummyEnv = l.getD j dummyEnv := by
  rw [List.getD_eq_getElem?_getD, List.getD_eq_getElem?_getD,
    List.getElem?_set_ne (fun he => hij he.symm)]

theorem count_assignAt (l : List Env) (i : Nat) (pid p : String)
    (hi : i < l.length) (hun : truthy (l.getD i dummyEnv).assigned = false)
    (hpid : pid ≠ "") :
    count_per_player (assignAt l i pid) p =
      count_per_player l p + (if p = pid then 1 else 0) := by
  by_cases hp : p = ""
  · subst hp
    have hne : ("" : String) ≠ pid := fun he => hpid he.symm
    simp [count_per_player, hne]
  · unfold count_per_player
    rw [if_neg hp, if_neg hp]
    have hold : ((l.getD i dummyEnv).assigned == some p) = false := by
      cases ha : (l.getD i dummyEnv).assigned with
      | none => simp
      | some s =>
        rw [ha] at hun
        have hs : s = "" := by simpa [truthy] using hun
        subst hs
        have hne : ("" : String) ≠ p := fun he => hp he.symm
        simpa using hne
    have hnew : (({ l.getD i dummyEnv with assigned := some pid } : Env).assigned
        == some p) = (if p = pid then true else false) := by
      by_cases hpp : p = pid
      · subst hpp; simp
      · have hne : pid ≠ p := fun he => hpp he.symm
        simpa [hpp] using hne
    have hfls := filter_length_set (fun e => e.assigned == some p) l i
      { l.getD i dummyEnv with assigned := some pid } hi
    simp only [] at hfls
    simp only [hold, hnew] at hfls
    unfold assignAt
    by_cases hpp : p = pid
    · simp only [hpp, if_true] at hfls ⊢
      simp at hfls ⊢
      omega
    · simp only [hpp, if_false] at hfls ⊢
      simp at hfls ⊢
      omega

theorem heapStep_inv (players : List String) (envs : List Env)
    (heap : List HeapEntry) (i : Nat) (hnd : players.Nodup)
    (hids : ∀ p ∈ players, p ≠ "") (hinv : HeapInv players envs heap)
    (hi : i < envs.length)
    (hun : truthy (envs.getD i dummyEnv).assigned = false) :
    HeapInv players (heapStep (envs, heap) i).1 (heapStep (envs, heap) i).2 := by
  obtain ⟨hperm, hcounts, hspread⟩ := hinv
  cases hpop : popMin heap with
  | none =>
    simp only [heapStep, hpop]
    exact ⟨hperm, hcounts, hspread⟩
  | some pr =>
    rcases pr with ⟨⟨c, t, pid⟩, rest⟩
    have hpermheap : heap.Perm ((c, t, pid) :: rest) := popMin_perm hpop
    have hmin := popMin_min hpop
    have hm_mem : (c, t, pid) ∈ heap :=
      hpermheap.mem_iff.mpr (List.mem_cons_self _ _)
    have hpid_mem : pid ∈ players :=
      hperm.mem_iff.mp (List.mem_map_of_mem (fun e => e.2.2) hm_mem)
    have hpid_ne : pid ≠ "" := hids pid hpid_mem
    have hc : c = count_per_player envs pid := hcounts (c, t, pid) hm_mem
    have hpidsnd : (heap.map (fun e => e.2.2)).Nodup := (hperm.nodup_iff).mpr hnd
    have hcons : (((c, t, pid) :: rest).map (fun e => e.2.2)).Nodup :=
      ((hpermheap.map (fun e => e.2.2)).nodup_iff).mp hpidsnd
    have hpid_notin_rest : pid ∉ rest.map (fun e => e.2.2) :=
      (List.nodup_cons.mp hcons).1
    simp only [heapStep, hpop]
    refine ⟨?_, ?_, ?_⟩
    · have h1 : ((c + 1, t, pid) :: rest).map (fun e => e.2.2) =
          ((c, t, pid) :: rest).map (fun e => e.2.2) := by simp
      rw [h1]
      exact (hpermheap.map (fun e => e.2.2)).symm.trans hperm
    · intro e he
      rcases List.mem_cons.mp he with he1 | he1
      · subst he1
        show c + 1 = count_per_player (assignAt envs i pid) pid
        rw [count_assignAt envs i pid pid hi hun hpid_ne, if_pos rfl, hc]
      · have hne : e.2.2 ≠ pid := fun hh =>
          hpid_notin_rest (hh ▸ List.mem_map_of_mem (fun x => x.2.2) he1)
        have hmem_heap : e ∈ heap :=
          hpermheap.mem_iff.mpr (List.mem_cons_of_mem _ he1)
        rw [count_assignAt envs i pid e.2.2 hi hun hpid_ne, if_neg hne]
        simpa using hcounts e hmem_heap
    · intro e1 he1 e2 he2
      have key : ∀ e ∈ rest, c ≤ e.1 := fun e he =>
        hmin e (hpermheap.mem_iff.mpr (List.mem_cons_of_mem _ he))
      rcases List.mem_cons.mp he1 with h1 | h1 <;>
        rcases List.mem_cons.mp he2 with h2 | h2
      · subst h1; subst h2; omega
      · subst h1
        have hk := key e2 h2
        show c + 1 ≤ e2.1 + 1
        omega
      · subst h2
        have hsp := hspread e1
          (hpermheap.mem_iff.mpr (List.mem_cons_of_mem _ h1)) (c, t, pid) hm_mem
        show e1.1 ≤ c + 1 + 1
        simp only [] at hsp
        omega
      · exact hspread e1 (hpermheap.mem_iff.mpr (List.mem_cons_of_mem _ h1))
          e2 (hpermheap.mem_iff.mpr (List.mem_cons_of_mem _ h2))

theorem runAssign_inv (players : List String) (hnd : players.Nodup)
    (hids : ∀ p ∈ players, p ≠ "") :
    ∀ (idxs : List Nat) (envs : List Env) (heap : List HeapEntry),
      HeapInv players envs heap → idxs.Nodup →
      (∀ j ∈ idxs, j < envs.length ∧
        truthy ((envs.getD j dummyEnv).assigned) = false) →
      HeapInv players (runAssign envs heap idxs).1 (runAssign envs heap idxs).2 := by
  intro idxs
  induction idxs with
  | nil => intro envs heap hinv _ _; exact hinv
  | cons i rest ih =>
    intro envs heap hinv hnd2 hcond
    have hi := (hcond i (List.mem_cons_self i rest)).1
    have hun := (hcond i (List.mem_cons_self i rest)).2
    have hstep := heapStep_inv players envs heap i hnd hids hinv hi hun
    have hrw : runAssign envs heap (i :: rest) =
        runAssign (heapStep (envs, heap) i).1 (heapStep (envs, heap) i).2 rest := by
      unfold runAssign
      rw [List.foldl_cons]
    rw [hrw]
    refine ih _ _ hstep (List.nodup_cons.mp hnd2).2 ?_
    intro j hj
    have hjne : j ≠ i := fun he => (List.nodup_cons.mp hnd2).1 (he ▸ hj)
    have hcj := hcond j (List.mem_cons_of_mem i hj)
    cases hpop : popMin heap with
    | none =>
      simp only [heapStep, hpop]
      exact hcj
    | some pr =>
      rcases pr with ⟨m, r2⟩
      simp only [heapStep, hpop]
      constructor
      · unfold assignAt
        rw [List.length_set]
        exact hcj.1
      · unfold assignAt
        rw [getD_set_ne_env envs i j _ hjne]
        exact hcj.2

theorem initHeap_inv (players : List String) (envs : List Env)
    (hbal : Balanced players envs) :
    HeapInv players envs (initHeap players envs) := by
  have hmem : ∀ pr ∈ players.enum, pr.2 ∈ players := by
    intro pr hpr
    have h2 := List.enum_map_snd players
    rw [← h2]
    exact List.mem_map_of_mem Prod.snd hpr
  refine ⟨?_, ?_, ?_⟩
  · have h1 : (initHeap players envs).map (fun e => e.2.2) = players := by
      unfold initHeap
      rw [List.map_map]
      have h2 : ((fun e : HeapEntry => e.2.2) ∘
          (fun pr : Nat × String =>
            (count_per_player envs pr.2, pr.1, pr.2))) = Prod.snd := by
        funext pr; rfl
      rw [h2, List.enum_map_snd]
    rw [h1]
  · intro e he
    unfold initHeap at he
    rcases List.mem_map.mp he with ⟨pr, hpr, he2⟩
    subst he2; rfl
  · intro e1 he1 e2 he2
    unfold initHeap at he1 he2
    rcases List.mem_map.mp he1 with ⟨pr1, hpr1, he1'⟩
    rcases List.mem_map.mp he2 with ⟨pr2, hpr2, he2'⟩
    subst he1'; subst he2'
    exact hbal pr1.2 (hmem pr1 hpr1) pr2.2 (hmem pr2 hpr2)

theorem balanced_of_heapInv (players : List String) (envs : List Env)
    (heap : List HeapEntry) (hinv : HeapInv players envs heap) :
    Balanced players envs := by
  obtain ⟨hperm, hcounts, hspread⟩ := hinv
  intro p hp q hq
  have hp2 : p ∈ heap.map (fun e => e.2.2) := hperm.mem_iff.mpr hp
  have hq2 : q ∈ heap.map (fun e => e.2.2) := hperm.mem_iff.mpr hq
  rcases List.mem_map.mp hp2 with ⟨ep, hep, hepp⟩
  rcases List.mem_map.mp hq2 with ⟨eq2, heq, heqq⟩
  have h1 := hcounts ep hep
  have h2 := hcounts eq2 heq
  have h3 := hspread ep hep eq2 heq
  rw [hepp] at h1
  rw [heqq] at h2
  omega

theorem unassignedIdxs_spec (envs : List Env) :
    ∀ j ∈ unassignedIdxs envs,
      j < envs.length ∧ truthy ((envs.getD j dummyEnv).assigned) = false := by
  intro j hj
  unfold unassignedIdxs at hj
  have hmem := List.mem_filter.mp hj
  exact ⟨List.mem_range.mp hmem.1, by simpa using hmem.2⟩

theorem unassignedIdxs_nodup (envs : List Env) : (unassignedIdxs envs).Nodup :=
  (List.nodup_range envs.length).filter _

theorem sortedIdxs_perm (envs : List Env) :
    (sortedIdxs envs).Perm (unassignedIdxs envs) :=
  sortLe_perm (idxLeb envs) (unassignedIdxs envs)

theorem distributeK_balanced (players : List String) (envs : List Env) (k : Nat)
    (hnd : players.Nodup) (hids : ∀ p ∈ players, p ≠ "")
    (hbal : Balanced players envs) :
    Balanced players (distributeK players envs k) := by
  unfold distributeK
  by_cases hp : players.isEmpty
  · rw [if_pos hp]; exact hbal
  · rw [if_neg hp]
    by_cases hu : (unassignedIdxs envs).isEmpty
    · rw [if_pos hu]; exact hbal
    · rw [if_neg hu]
      have hsortnd : (sortedIdxs envs).Nodup :=
        ((sortedIdxs_perm envs).nodup_iff).mpr (unassignedIdxs_nodup envs)
      have hidxnd : ((sortedIdxs envs).take k).Nodup :=
        hsortnd.sublist (List.take_sublist k (sortedIdxs envs))
      have hconds : ∀ j ∈ (sortedIdxs envs).take k,
          j < envs.length ∧ truthy ((envs.getD j dummyEnv).assigned) = false := by
        intro j hj
        exact unassignedIdxs_spec envs j
          ((sortedIdxs_perm envs).mem_iff.mp (List.mem_of_mem_take hj))
      have hinv := runAssign_inv players hnd hids ((sortedIdxs envs).take k) envs
        (initHeap players envs) (initHeap_inv players envs hbal) hidxnd hconds
      exact balanced_of_heapInv players _ _ hinv

theorem distribute_snd_eq (players : List String) (envs : List Env) :
    (distribute_envelopes_equitable players envs).2 =
      distributeK players envs (sortedIdxs envs).length := by
  unfold distribute_envelopes_equitable distributeK
  by_cases hp : players.isEmpty
  · rw [if_pos hp, if_pos hp]
  · rw [if_neg hp, if_neg hp]
    by_cases hu : (unassignedIdxs envs).isEmpty
    · rw [if_pos hu, if_pos hu]
    · rw [if_neg hu, if_neg hu]
      rw [List.take_length]

theorem distribute_balanced (players : List String) (envs : List Env)
    (hnd : players.Nodup) (hids : ∀ p ∈ players, p ≠ "")
    (hbal : Balanced players envs) :
    Balanced players (distribute_envelopes_equitable players envs).2 := by
  rw [distribute_snd_eq]
  exact distributeK_balanced players envs _ hnd hids hbal

theorem count_append_unassigned (envs add : List Env) (p : String)
    (h : ∀ e ∈ add, e.assigned = none) :
    count_per_player (envs ++ add) p = count_per_player envs p := by
  unfold count_per_player
  by_cases hp : p = ""
  · rw [if_pos hp, if_pos hp]
  · rw [if_neg hp, if_neg hp]
    rw [List.filter_append]
    have hnil : add.filter (fun e => e.assigned == some p) = [] := by
      refine List.filter_eq_nil_iff.mpr (fun a ha => ?_)
      rw [h a ha]
      simp
    rw [hnil, List.append_nil]

theorem balanced_append (players : List String) (envs add : List Env)
    (h : ∀ e ∈ add, e.assigned = none) (hbal : Balanced players envs) :
    Balanced players (envs ++ add) := by
  intro p hp q hq
  rw [count_append_unassigned envs add p h, count_append_unassigned envs add q h]
  exact hbal p hp q hq

theorem runSeq_balanced (players : List String) (hnd : players.Nodup)
    (hids : ∀ p ∈ players, p ≠ "") :
    ∀ (additions : List (List Env)) (envs0 : List Env),
      Balanced players envs0 →
      (∀ l ∈ additions, ∀ e ∈ l, e.assigned = none) →
      Balanced players (runSeq players envs0 additions) := by
  intro additions
  induction additions with
  | nil => intro envs0 hb _; exact hb
  | cons add rest ih =>
    intro envs0 hb hadd
    have hrw : runSeq players envs0 (add :: rest) =
        runSeq players (distribute_envelopes_equitable players (envs0 ++ add)).2 rest := by
      unfold runSeq
      rw [List.foldl_cons]
    rw [hrw]
    refine ih _ ?_ (fun l hl => hadd l (List.mem_cons_of_mem add hl))
    exact distribute_balanced players _ hnd hids
      (balanced_append players envs0 add (hadd add (List.mem_cons_self add rest)) hb)

theorem balanced_all_none (players : List String) (envs : List Env)
    (h : ∀ e ∈ envs, e.assigned = none) : Balanced players envs := by
  have hz : ∀ r : String, count_per_player envs r = 0 := by
    intro r
    unfold count_per_player
    by_cases hr : r = ""
    · rw [if_pos hr]
    · rw [if_neg hr]
      have hnil : envs.filter (fun e => e.assigned == some r) = [] := by
        refine List.filter_eq_nil_iff.mpr (fun a ha => ?_)
        rw [h a ha]
        simp
      rw [hnil]
      rfl
  intro p hp q hq
  rw [hz p, hz q]
  omega

/-- C1: starting from a pool in which no envelope is assigned, over a
fixed, duplicate-free, non-empty player set (with non-empty ids), after
any sequence of `distribute_envelopes_equitable` runs with batches of
new unassigned envelopes appended between runs, any two players' counts
differ by at most one — and the bound already holds at the point each
individual envelope is assigned, i.e. after every prefix of every run's
assignment loop. -/
theorem C1_allocation_fairness (players : List String) (envs0 : List Env)
    (additions : List (List Env)) (_hne : players ≠ []) (hnd : players.Nodup)
    (hids : ∀ p ∈ players, p ≠ "")
    (h0 : ∀ e ∈ envs0, e.assigned = none)
    (hadd : ∀ l ∈ additions, ∀ e ∈ l, e.assigned = none) :
    Balanced players (runSeq players envs0 additions) ∧
    (∀ j k, Balanced players
      (distributeK players
        (runSeq players envs0 (additions.take j) ++ additions.getD j []) k)) := by
  have hbal0 : Balanced players envs0 := balanced_all_none players envs0 h0
  constructor
  · exact runSeq_balanced players hnd hids additions envs0 hbal0 hadd
  · intro j k
    have htake : ∀ l ∈ additions.take j, ∀ e ∈ l, e.assigned = none :=
      fun l hl => hadd l (List.mem_of_mem_take hl)
    have hj : Balanced players (runSeq players envs0 (additions.take j)) :=
      runSeq_balanced players hnd hids (additions.take j) envs0 hbal0 htake
    have haddj : ∀ e ∈ additions.getD j [], e.assigned = none := by
      by_cases hjlen : j < additions.length
      · rw [List.getD_eq_getElem additions [] hjlen]
        exact hadd additions[j] (List.getElem_mem hjlen)
      · rw [List.getD_eq_default additions [] (by omega)]
        intro e he; cases he
    exact distributeK_balanced players _ k hnd hids
      (balanced_append players _ _ haddj hj)

theorem C1_witness :
    Balanced ["p1", "p2"]
      (runSeq ["p1", "p2"]
        [{ id := "e1", importance := "high", assigned := none },
         { id := "e2", importance := "medium", assigned := none },
         { id := "e3", importance := "low", assigned := none }]
        [[], [{ id := "e4", importance := "high", assigned := none }]]) :=
  (C1_allocation_fairness ["p1", "p2"]
    [{ id := "e1", importance := "high", assigned := none },
     { id := "e2", importance := "medium", assigned := none },
     { id := "e3", importance := "low", assigned := none }]
    [[], [{ id := "e4", importance := "high", assigned := none }]]
    (by decide) (by decide) (by decide) (by decide) (by decide)).1

theorem runAssign_getD_stable (j : Nat) :
    ∀ (idxs : List Nat) (envs : List Env) (heap : List HeapEntry), j ∉ idxs →
      ((runAssign envs heap idxs).1).getD j dummyEnv = envs.getD j dummyEnv := by
  intro idxs
  induction idxs with
  | nil => intro envs heap _; rfl
  | cons i rest ih =>
    intro envs heap hj
    have hji : j ≠ i := fun he => hj (he ▸ List.mem_cons_self i rest)
    have hjrest : j ∉ rest := fun he => hj (List.mem_cons_of_mem i he)
    have hrw : runAssign envs heap (i :: rest) =
        runAssign (heapStep (envs, heap) i).1 (heapStep (envs, heap) i).2 rest := by
      unfold runAssign
      rw [List.foldl_cons]
    rw [hrw]
    cases hpop : popMin heap with
    | none =>
      simp only [heapStep, hpop]
      exact ih envs heap hjrest
    | some pr =>
      rcases pr with ⟨m, r2⟩
      simp only [heapStep, hpop]
      rw [ih _ _ hjrest]
      unfold assignAt
      exact getD_set_ne_env envs i j _ hji

/-- C2: when every envelope in the pool is already (truthily) assigned,
a run of `distribute_envelopes_equitable` returns the pool unchanged
and reports zero newly assigned; and in general any run leaves every
already-assigned envelope exactly as it was — it only tops up
unassigned envelopes, never reshuffles existing assignments. -/
theorem C2_idempotence_topup (players : List String) (envs : List Env) :
    ((∀ e ∈ envs, truthy e.assigned = true) →
      (distribute_envelopes_equitable players envs).2 = envs ∧
      (distribute_envelopes_equitable players envs).1.assigned = 0) ∧
    (∀ i, truthy ((envs.getD i dummyEnv).assigned) = true →
      ((distribute_envelopes_equitable players envs).2).getD i dummyEnv =
        envs.getD i dummyEnv) := by
  constructor
  · intro hall
    have hu : (unassignedIdxs envs).isEmpty = true := by
      have hnil : unassignedIdxs envs = [] := by
        unfold unassignedIdxs
        refine List.filter_eq_nil_iff.mpr (fun i hi => ?_)
        have hilen : i < envs.length := List.mem_range.mp hi
        have hmem : envs.getD i dummyEnv ∈ envs := by
          rw [List.getD_eq_getElem envs dummyEnv hilen]
          exact List.getElem_mem hilen
        rw [hall _ hmem]
        simp
      rw [hnil]
      rfl
    unfold distribute_envelopes_equitable
    by_cases hp : players.isEmpty
    · rw [if_pos hp]; exact ⟨rfl, rfl⟩
    · rw [if_neg hp, if_pos hu]; exact ⟨rfl, rfl⟩
  · intro i hi
    have hnotin : i ∉ sortedIdxs envs := by
      intro hmem
      have h2 := (unassignedIdxs_spec envs i
        ((sortedIdxs_perm envs).mem_iff.mp hmem)).2
      rw [hi] at h2; cases h2
    unfold distribute_envelopes_equitable
    by_cases hp : players.isEmpty
    · rw [if_pos hp]
    · rw [if_neg hp]
      by_cases hu : (unassignedIdxs envs).isEmpty
      · rw [if_pos hu]
      · rw [if_neg hu]
        exact runAssign_getD_stable i (sortedIdxs envs) envs
          (initHeap players envs) hnotin

theorem C2_witness :
    (distribute_envelopes_equitable ["p1", "p2"]
      [{ id := "e1", importance := "high", assigned := some "p1" },
       { id := "e2", importance := "low", assigned := some "p2" }]).2 =
      [{ id := "e1", importance := "high", assigned := some "p1" },
       { id := "e2", importance := "low", assigned := some "p2" }] ∧
    ((distribute_envelopes_equitable ["p1", "p2"]
      [{ id := "e1", importance := "high", assigned := some "p1" },
       { id := "e2", importance := "medium", assigned := none }]).2).getD 0 dummyEnv =
      { id := "e1", importance := "high", assigned := some "p1" } :=
  ⟨((C2_idempotence_topup ["p1", "p2"]
      [{ id := "e1", importance := "high", assigned := some "p1" },
       { id := "e2", importance := "low", assigned := some "p2" }]).1
      (by decide)).1,
   (C2_idempotence_topup ["p1", "p2"]
      [{ id := "e1", importance := "high", assigned := some "p1" },
       { id := "e2", importance := "medium", assigned := none }]).2 0 (by decide)⟩

end MurderParty
